import Mathlib

/-!
GoEV3Blocks: the differential-drive controller of `drive.go`.

A shallow embedding of `drive.go` (package `GoEV3Blocks`): the `Drive` record, the
`MoveOp` constants, `steeringPowerCurve`, `setBrakeMode`, `MoveSteering` and one iteration
of the heading-hold goroutine, followed by theorems about them.

Modelling conventions.

* Calls into the external packages `Motor`, `Sensors`, `fmt` and `time` are recorded, in
  program order, in a log of `Event`s kept in the system state.
* Answers of `Motor.ReadState` come from an environment `env : Nat → String`: the answer
  to the `n`-th `ReadState` call made so far.
* Channels are numbered; the state records which numbers were handed out by `make`, which
  were closed, and which goroutines were launched on which channel.
* A call ends in `Outcome.ok` (Go returns `nil`), `Outcome.err msg` (Go returns
  `errors.New(msg)`) or `Outcome.panic` (a run-time panic).  Loops and the recursive call
  take fuel; running out of fuel is `none`.
* Go's `float32`/`float64` are modelled by `GoFloat`: finite values are whole multiples
  of `2 ^ (-1074)`, and every operation rounds its exact result to nearest, ties to even,
  with 24/53 significant bits, gradual underflow and overflow to infinity.
  The sign of zero is not recorded; the program only divides by the constant `100` and
  only observes floats through `<` and through conversion to integers, neither of which
  depends on it.
* What Go leaves to the implementation (the width of `int`, the result of converting an
  out-of-range float to an integer) is a field of `Platform`.
-/

namespace GoEV3Blocks

/-! ## Integers -/

/-- Conversion to a signed two's-complement integer of `bits` bits (Go's `int16(x)`,
`int32(x)` on integers): keep the low `bits` bits. -/
def wrapSigned (bits : Nat) (n : Int) : Int :=
  (n + 2 ^ (bits - 1)) % 2 ^ bits - 2 ^ (bits - 1)

/-- Go `int16(x)` for an integer `x`. -/
def toInt16 (n : Int) : Int := wrapSigned 16 n

/-- Go `int32(x)` for an integer `x`. -/
def toInt32 (n : Int) : Int := wrapSigned 32 n

/-- Go `strconv.Itoa`: decimal digits, with a leading `-` for negative numbers. -/
def itoa (n : Int) : String := toString n

/-! ## Floating point -/

/-- Finite floating-point values are counted in units of `2 ^ (-1074)`, the smallest
positive `float64`: every finite `float32` and `float64` is a whole number of units. -/
def unitExp : Nat := 1074

/-- A Go floating-point value: the finite number `k * 2 ^ (-1074)`, an infinity
(`neg` tells its sign), or NaN. -/
inductive GoFloat where
  | fin (k : Int)
  | inf (neg : Bool)
  | nan
  deriving DecidableEq, Repr

/-- A binary floating-point format: `prec` significant bits, the smallest subnormal
`2 ^ qmin` units, and the overflow threshold `2 ^ emax` units. -/
structure FloatFormat where
  prec : Nat
  qmin : Nat
  emax : Nat

/-- IEEE 754 binary32, Go's `float32`: 24 bits, smallest subnormal `2 ^ (-149)`,
overflow at `2 ^ 128`. -/
def binary32 : FloatFormat := ⟨24, unitExp - 149, unitExp + 128⟩

/-- IEEE 754 binary64, Go's `float64`: 53 bits, smallest subnormal `2 ^ (-1074)`,
overflow at `2 ^ 1024`. -/
def binary64 : FloatFormat := ⟨53, 0, unitExp + 1024⟩

/-- Worker of `floorLog2`: one bit at a time below `2 ^ 64`, 64 bits at a time above. -/
def log2Fuel : Nat → Nat → Nat
  | 0, _ => 0
  | fuel + 1, n =>
    if n < 2 then 0
    else if n < 2 ^ 64 then log2Fuel fuel (n / 2) + 1
    else log2Fuel fuel (n / 2 ^ 64) + 64

/-- The exponent `e` with `2 ^ e ≤ n < 2 ^ (e + 1)` for `n ≥ 1`. -/
def floorLog2 (n : Nat) : Nat := log2Fuel n n

/-- The exponent `e ≥ 0` with `2 ^ e ≤ a / d < 2 ^ (e + 1)`, or `0` when `a / d < 1`. -/
def floorLog2Ratio (a d : Nat) : Nat :=
  let c := floorLog2 a - floorLog2 d
  if d * 2 ^ c ≤ a then c else c - 1

/-- Round the quotient `a / d` to the nearest natural number, ties to the even one. -/
def roundHalfEven (a d : Nat) : Nat :=
  let q := a / d
  let r := a % d
  if 2 * r < d then q
  else if d < 2 * r then q + 1
  else if q % 2 = 0 then q else q + 1

/-- Round the exact result `n / d` (in units) to the format: nearest representable value,
ties to even, gradual underflow; a rounded magnitude of `2 ^ emax` units or more
overflows to infinity. -/
def FloatFormat.round (fmt : FloatFormat) (n : Int) (d : Nat) : GoFloat :=
  let a := n.natAbs
  if a = 0 then .fin 0
  else
    let e := max (floorLog2Ratio a d - (fmt.prec - 1)) fmt.qmin
    let k := roundHalfEven a (d * 2 ^ e) * 2 ^ e
    if 2 ^ fmt.emax ≤ k then .inf (decide (n < 0))
    else .fin (if n < 0 then -(k : Int) else k)

namespace GoFloat

/-- The float with the integer value `n` (no rounding). -/
def ofInt (n : Int) : GoFloat := fin (n * 2 ^ unitExp)

/-- Conversion between formats (Go `float32(x)` on a `float64`). -/
def convert (fmt : FloatFormat) : GoFloat → GoFloat
  | fin k => fmt.round k 1
  | x => x

/-- Unary minus. -/
def neg : GoFloat → GoFloat
  | fin k => fin (-k)
  | inf s => inf (!s)
  | nan => nan

/-- Rounded addition. -/
def add (fmt : FloatFormat) : GoFloat → GoFloat → GoFloat
  | nan, _ => nan
  | _, nan => nan
  | inf s, inf t => if s = t then inf s else nan
  | inf s, fin _ => inf s
  | fin _, inf t => inf t
  | fin a, fin b => fmt.round (a + b) 1

/-- Rounded multiplication. -/
def mul (fmt : FloatFormat) : GoFloat → GoFloat → GoFloat
  | nan, _ => nan
  | _, nan => nan
  | inf s, inf t => inf (s != t)
  | inf s, fin b => if b = 0 then nan else inf (s != decide (b < 0))
  | fin a, inf t => if a = 0 then nan else inf (decide (a < 0) != t)
  | fin a, fin b => fmt.round (a * b) (2 ^ unitExp)

/-- Rounded division by a positive integer constant `c`. -/
def divConst (fmt : FloatFormat) (c : Nat) : GoFloat → GoFloat
  | fin a => fmt.round a c
  | x => x

/-- Go `x < 0`; comparisons with NaN are false. -/
def ltZero : GoFloat → Bool
  | fin a => decide (a < 0)
  | inf s => s
  | nan => false

end GoFloat

/-- What the Go specification leaves to the implementation. -/
structure Platform where
  /-- Go `int` has this many bits (32 or 64). -/
  intBits : Nat
  /-- Result of `int16(x)` for a `float32` that `int16` cannot represent. -/
  f32ToInt16 : GoFloat → Int
  /-- Result of `int32(x)` for a `float64` that `int32` cannot represent. -/
  f64ToInt32 : GoFloat → Int

/-- Go conversion of a float to a signed integer type of `bits` bits: the fraction is
discarded (truncation toward zero); a value the type cannot represent gives the
implementation-dependent result `other x`. -/
def floatToInt (bits : Nat) (other : GoFloat → Int) (x : GoFloat) : Int :=
  match x with
  | .fin k =>
    let t := Int.tdiv k (2 ^ unitExp)
    if -(2 ^ (bits - 1) : Int) ≤ t ∧ t < 2 ^ (bits - 1) then t else other x
  | _ => other x

/-- The constant `float32(1.1)`: the decimal `1.1` rounded to `float32`. -/
def f32_1_1 : GoFloat := binary32.round (11 * 2 ^ unitExp) 10

/-- Go `float32(x)` for an `int16` value `x`. -/
def int16ToF32 (n : Int) : GoFloat := binary32.round (n * 2 ^ unitExp) 1


/-! ## Values passed through `args ...interface{}` -/

/-- A value of Go's `interface{}` with its dynamic type: the types `MoveSteering` asserts
(`bool`, `int`, `int16`, `float64`) and two others (`string`, the nil interface). -/
inductive GoVal where
  | bool (b : Bool)
  | int (n : Int)
  | int16 (n : Int)
  | float64 (x : GoFloat)
  | string (s : String)
  | nil
  deriving DecidableEq

/-- Dynamic types of `GoVal`. -/
inductive GoType where
  | bool | int | int16 | float64 | string | nil
  deriving DecidableEq

/-- The dynamic type of a value. -/
def GoVal.type : GoVal → GoType
  | .bool _ => .bool
  | .int _ => .int
  | .int16 _ => .int16
  | .float64 _ => .float64
  | .string _ => .string
  | .nil => .nil

/-- The type assertion `v.(bool)`; `none` is the run-time panic. -/
def GoVal.asBool : GoVal → Option Bool
  | .bool b => some b
  | _ => none

/-- The type assertion `v.(int)`; `none` is the run-time panic. -/
def GoVal.asInt : GoVal → Option Int
  | .int n => some n
  | _ => none

/-- The type assertion `v.(int16)`; `none` is the run-time panic. -/
def GoVal.asInt16 : GoVal → Option Int
  | .int16 n => some n
  | _ => none

/-- The type assertion `v.(float64)`; `none` is the run-time panic. -/
def GoVal.asFloat64 : GoVal → Option GoFloat
  | .float64 x => some x
  | _ => none

/-! ## The Drive and its surroundings -/

/-- The handle `Motor.OutPort` of the external motor package; it is only passed on. -/
abbrev OutPort := String

/-- The handle `Sensors.GyroSensor` of the external sensor package; it is only passed on. -/
abbrev GyroSensor := String

/-- The struct `Drive`; `moveChannel` is `none` for a nil channel, `gyro` is `none` for a
nil pointer. -/
structure Drive where
  leftMotor : OutPort
  rightMotor : OutPort
  brakeModeValid : Bool
  brakeMode : Bool
  moveChannel : Option Nat
  gyro : Option GyroSensor
  deriving DecidableEq

/-- The type `MoveOp` (a Go `int`). -/
abbrev MoveOp := Int

def MOVE_OFF : MoveOp := 0
def MOVE_ON : MoveOp := 1
def MOVE_ON_GYRO : MoveOp := 2
def MOVE_ON_SECONDS : MoveOp := 3
def MOVE_ON_DEGREES : MoveOp := 4
def MOVE_ON_ROTATIONS : MoveOp := 5

/-- A call that leaves the package, as it is logged. -/
inductive Event where
  | EnableRegulationMode (p : OutPort)
  | DisableRegulationMode (p : OutPort)
  | EnableBrakeMode (p : OutPort)
  | DisableBrakeMode (p : OutPort)
  | Run (p : OutPort) (power : Int)
  | RunTimed (p : OutPort) (power ms : Int)
  | RunToRelPos (p : OutPort) (power degrees : Int)
  | Stop (p : OutPort)
  | ReadState (p : OutPort)
  | ReadAngle (g : Option GyroSensor)
  | Sleep (ms : Nat)
  | Println (s : String)
  | Printf (s : String)
  deriving DecidableEq

/-- The calls to the motor package (the hardware calls). -/
def Event.isMotorCall : Event → Bool
  | .Sleep _ => false
  | .Println _ => false
  | .Printf _ => false
  | .ReadAngle _ => false
  | _ => true

/-- A launched heading-hold goroutine: the channel it listens on and its two arguments. -/
structure HoldLoop where
  chan : Option Nat
  angle : Int
  power : Int
  deriving DecidableEq

/-- The state of the program: the Drive, the channels made and closed so far, the
goroutines launched so far, the number of `ReadState` answers consumed, and the log of
the calls made by the foreground control flow (oldest first). -/
structure Sys where
  d : Drive
  chans : Nat
  closed : List Nat
  loops : List HoldLoop
  polls : Nat
  log : List Event
  deriving DecidableEq

/-- How a call of `MoveSteering` ends. -/
inductive Outcome where
  | ok
  | err (msg : String)
  | panic
  deriving DecidableEq

/-- Append calls to the log. -/
def Sys.emit (s : Sys) (es : List Event) : Sys := { s with log := s.log ++ es }

/-- The zero value `Drive{}` in a program that has done nothing yet. -/
def Sys.zero : Sys :=
  { d := { leftMotor := "", rightMotor := "", brakeModeValid := false, brakeMode := false,
           moveChannel := none, gyro := none },
    chans := 0, closed := [], loops := [], polls := 0, log := [] }

/-- The method `Drive.Configure`. -/
def Configure (s : Sys) (leftMotor rightMotor : OutPort) (gyro : Option GyroSensor)
    (regulationMode : Bool) : Sys :=
  let s1 := { s with d := { s.d with leftMotor := leftMotor, rightMotor := rightMotor,
                                     gyro := gyro } }
  if regulationMode then
    s1.emit [.EnableRegulationMode leftMotor, .EnableRegulationMode rightMotor]
  else
    s1.emit [.DisableRegulationMode leftMotor, .DisableRegulationMode rightMotor]

/-- The function `steeringPowerCurve` on `float32`.  (`2*percent` is exact, so a fused
multiply-add gives the same value.) -/
def steeringPowerCurve (percent : GoFloat) : GoFloat :=
  if percent.ltZero then
    GoFloat.add binary32 (GoFloat.mul binary32 (GoFloat.ofInt 2) percent) (GoFloat.ofInt 100)
  else
    GoFloat.ofInt 100

/-- The method `Drive.setBrakeMode`. -/
def setBrakeMode (s : Sys) (brakeMode : Bool) : Sys :=
  let s1 :=
    if s.d.brakeModeValid != true then
      { s with d := { s.d with brakeModeValid := true, brakeMode := !brakeMode } }
    else s
  if brakeMode != s1.d.brakeMode then
    let s2 :=
      if brakeMode == true then
        s1.emit [.EnableBrakeMode s1.d.leftMotor, .EnableBrakeMode s1.d.rightMotor]
      else
        s1.emit [.DisableBrakeMode s1.d.leftMotor, .DisableBrakeMode s1.d.rightMotor]
    { s2 with d := { s2.d with brakeMode := brakeMode } }
  else s1

/-- The expression `int16(float32(power) * steeringPowerCurve(steering) / 100)`. -/
def wheelPower (pf : Platform) (power : Int) (steering : GoFloat) : Int :=
  floatToInt 16 pf.f32ToInt16
    (GoFloat.divConst binary32 100
      (GoFloat.mul binary32 (int16ToF32 power) (steeringPowerCurve steering)))

/-- The loop `for { if ReadState(left) == "" || ReadState(right) == "" { break }; Sleep }`
that ends `MOVE_ON_DEGREES` and `MOVE_ON_SECONDS`; `||` does not evaluate its right
operand when the left one is true.  Each round of the loop takes one unit of fuel. -/
def waitLoop (env : Nat → String) : Nat → Sys → Option Sys
  | 0, _ => none
  | fuel + 1, s =>
    let s1 := { s.emit [.ReadState s.d.leftMotor] with polls := s.polls + 1 }
    if env s.polls == "" then some s1
    else
      let s2 := { s1.emit [.ReadState s.d.rightMotor] with polls := s1.polls + 1 }
      if env s1.polls == "" then some s2
      else waitLoop env fuel (s2.emit [.Sleep 250])

/-- The method `Drive.MoveSteering`.  The recursive call of `MOVE_ON_ROTATIONS` and
each round of a wait loop take fuel; `none` means the fuel ran out.  A failed type
assertion and `close` of a closed channel end the call in `Outcome.panic`, with the state
as it was at that point. -/
def MoveSteering (pf : Platform) (env : Nat → String) :
    Nat → Sys → MoveOp → List GoVal → Option (Outcome × Sys)
  | 0, _, _, _ => none
  | fuel + 1, s, op, args =>
    let argc := args.length
    if argc == 0 then some (.err "No op specified", s)
    else if op == MOVE_OFF then
      if argc != 1 then some (.err ("Expected 1 argument, got " ++ itoa argc), s)
      else
        match (args.getD 0 .nil).asBool with
        | none => some (.panic, s)
        | some brake =>
          let s1 := setBrakeMode s brake
          match s1.d.moveChannel with
          | some c =>
            if c ∈ s1.closed then some (.panic, s1)
            else
              let s2 := { s1 with closed := c :: s1.closed,
                                  d := { s1.d with moveChannel := none } }
              some (.ok, s2.emit [.Sleep 250])
          | none =>
            some (.ok, s1.emit [.Println "Stopping motors!", .Stop s1.d.leftMotor,
                                .Stop s1.d.rightMotor])
    else if op == MOVE_ON then
      if argc != 2 then some (.err ("Expected 2 arguments, got " ++ itoa argc), s)
      else
        match (args.getD 0 .nil).asFloat64 with
        | none => some (.panic, s)
        | some steering64 =>
          let steering := GoFloat.convert binary32 steering64
          match (args.getD 1 .nil).asInt with
          | none => some (.panic, s)
          | some power0 =>
            let power := toInt16 power0
            let leftPower := wheelPower pf power steering
            let rightPower := wheelPower pf power steering.neg
            some (.ok, s.emit [.Run s.d.leftMotor leftPower, .Run s.d.rightMotor rightPower])
    else if op == MOVE_ON_GYRO then
      let s1 :=
        if s.d.moveChannel == none then
          { s with d := { s.d with moveChannel := some s.chans }, chans := s.chans + 1 }
        else s
      if argc != 2 then some (.err ("Expected 2 arguments, got " ++ itoa argc), s1)
      else
        match (args.getD 0 .nil).asInt16 with
        | none => some (.panic, s1)
        | some angle =>
          match (args.getD 1 .nil).asInt with
          | none => some (.panic, s1)
          | some power0 =>
            let power := toInt16 power0
            let s2 := s1.emit [.Run s1.d.leftMotor (Int.tdiv power 2),
                               .Run s1.d.rightMotor (Int.tdiv power 2)]
            let moveChannel := s2.d.moveChannel
            some (.ok, { s2 with loops := s2.loops ++ [⟨moveChannel, angle, power⟩] })
    else if op == MOVE_ON_DEGREES then
      if argc != 4 then some (.err ("Expected 4 arguments, got " ++ itoa argc), s)
      else
        match (args.getD 0 .nil).asFloat64 with
        | none => some (.panic, s)
        | some steering64 =>
          let steering := GoFloat.convert binary32 steering64
          match (args.getD 1 .nil).asInt with
          | none => some (.panic, s)
          | some power0 =>
            let power := toInt16 power0
            match (args.getD 2 .nil).asInt with
            | none => some (.panic, s)
            | some degrees0 =>
              let degrees := toInt32 degrees0
              match (args.getD 3 .nil).asBool with
              | none => some (.panic, s)
              | some brake =>
                let s1 := setBrakeMode s brake
                let leftPower := wheelPower pf power steering
                let rightPower := wheelPower pf power steering.neg
                let s2 := s1.emit [.RunToRelPos s1.d.leftMotor leftPower degrees,
                                   .RunToRelPos s1.d.rightMotor rightPower degrees]
                match waitLoop env fuel s2 with
                | none => none
                | some s3 => some (.ok, s3)
    else if op == MOVE_ON_ROTATIONS then
      if argc != 4 then some (.err ("Expected 4 arguments, got " ++ itoa argc), s)
      else
        match (args.getD 2 .nil).asInt with
        | none => some (.panic, s)
        | some rotations =>
          let degrees := wrapSigned pf.intBits (rotations * 360)
          match MoveSteering pf env fuel s MOVE_ON_DEGREES
              [args.getD 0 .nil, args.getD 1 .nil, .int degrees, args.getD 3 .nil] with
          | none => none
          | some (.panic, s1) => some (.panic, s1)
          | some (_, s1) => some (.ok, s1)
    else if op == MOVE_ON_SECONDS then
      if argc != 4 then some (.err ("Expected 4 arguments, got " ++ itoa argc), s)
      else
        match (args.getD 0 .nil).asFloat64 with
        | none => some (.panic, s)
        | some steering64 =>
          let steering := GoFloat.convert binary32 steering64
          match (args.getD 1 .nil).asInt with
          | none => some (.panic, s)
          | some power0 =>
            let power := toInt16 power0
            match (args.getD 2 .nil).asFloat64 with
            | none => some (.panic, s)
            | some seconds =>
              let ms := floatToInt 32 pf.f64ToInt32
                (GoFloat.mul binary64 seconds (GoFloat.ofInt 1000))
              match (args.getD 3 .nil).asBool with
              | none => some (.panic, s)
              | some brake =>
                let s1 := setBrakeMode s brake
                let leftPower := wheelPower pf power steering
                let rightPower := wheelPower pf power steering.neg
                let s2 := s1.emit [.RunTimed s1.d.leftMotor leftPower ms,
                                   .RunTimed s1.d.rightMotor rightPower ms]
                match waitLoop env fuel s2 with
                | none => none
                | some s3 => some (.ok, s3)
    else some (.err ("Unknown op: " ++ itoa op), s)

/-- The `default` branch of the `select` in the heading-hold goroutine: the powers
commanded for the sensor reading `gyroValue`, as (leftPower, rightPower, sign). -/
def holdPowers (pf : Platform) (angle power gyroValue : Int) : Int × Int × String :=
  if gyroValue < angle then
    (floatToInt 16 pf.f32ToInt16 (GoFloat.mul binary32 (int16ToF32 power) f32_1_1), power, "<")
  else if gyroValue > angle then
    (power, floatToInt 16 pf.f32ToInt16 (GoFloat.mul binary32 (int16ToF32 power) f32_1_1), ">")
  else
    (power, power, "=")

/-- One round of the `for { select { ... } }` loop of the goroutine launched by
`MOVE_ON_GYRO`, given whether its channel is closed by now and what the gyro reads:
the calls it makes, and whether the goroutine goes on (`true`) or returns (`false`). -/
def holdLoopStep (pf : Platform) (d : Drive) (t : HoldLoop) (chanClosed : Bool)
    (gyroValue : Int) : List Event × Bool :=
  if chanClosed then ([.Println "moveChannel STOP"], false)
  else
    let (leftPower, rightPower, sign) := holdPowers pf t.angle t.power gyroValue
    ([.ReadAngle d.gyro, .Run d.leftMotor leftPower, .Run d.rightMotor rightPower,
      .Printf ("(" ++ itoa gyroValue ++ sign ++ itoa t.angle ++ "," ++ itoa leftPower ++ ","
        ++ itoa rightPower ++ ")")], true)

/-- Whether a launched goroutine has been signalled to stop: its channel is closed.
(A goroutine on a nil channel can never be signalled.) -/
def HoldLoop.cancelled (s : Sys) (t : HoldLoop) : Bool :=
  match t.chan with
  | some c => decide (c ∈ s.closed)
  | none => false

/-- The heading-hold loops that are active: launched and not yet signalled to stop. -/
def activeLoops (s : Sys) : List HoldLoop := s.loops.filter (fun t => !t.cancelled s)

/-- A Drive fresh from `Configure`. -/
def freshDrive (leftMotor rightMotor : OutPort) (gyro : Option GyroSensor)
    (regulationMode : Bool) : Sys :=
  Configure Sys.zero leftMotor rightMotor gyro regulationMode

/-- The states a freshly configured Drive reaches by a sequence of `MoveSteering` calls
that return (normally, with an error, or by a recovered panic). -/
inductive Reachable (pf : Platform) (env : Nat → String) : Sys → Prop where
  | fresh (leftMotor rightMotor : OutPort) (gyro : Option GyroSensor) (regulationMode : Bool) :
      Reachable pf env (freshDrive leftMotor rightMotor gyro regulationMode)
  | call {s s1 : Sys} {out : Outcome} (fuel : Nat) (op : MoveOp) (args : List GoVal) :
      Reachable pf env s → MoveSteering pf env fuel s op args = some (out, s1) →
      Reachable pf env s1

/-- The types the type assertions of each `case` of `MoveSteering` demand, in argument
order; its length is the argument count the `case` checks. -/
def argTypes (op : MoveOp) : List GoType :=
  if op = MOVE_OFF then [.bool]
  else if op = MOVE_ON then [.float64, .int]
  else if op = MOVE_ON_GYRO then [.int16, .int]
  else if op = MOVE_ON_DEGREES then [.float64, .int, .int, .bool]
  else if op = MOVE_ON_ROTATIONS then [.float64, .int, .int, .bool]
  else if op = MOVE_ON_SECONDS then [.float64, .int, .float64, .bool]
  else []

/-- The six defined operations. -/
def definedOps : List MoveOp :=
  [MOVE_OFF, MOVE_ON, MOVE_ON_GYRO, MOVE_ON_SECONDS, MOVE_ON_DEGREES, MOVE_ON_ROTATIONS]

/-- A platform used for concrete runs: 64-bit `int`, out-of-range conversions give `0`. -/
def testPlatform : Platform := ⟨64, fun _ => 0, fun _ => 0⟩

/-- An environment in which every `ReadState` answers idle. -/
def idleEnv : Nat → String := fun _ => ""


/-- The argument-count error of `MoveSteering`, carrying the expected and the actual
count. -/
def countError (expected actual : Nat) : String :=
  (if expected = 1 then "Expected 1 argument, got "
   else "Expected " ++ itoa expected ++ " arguments, got ") ++ itoa actual

/-- The state after a `MoveSteering` call that fails its argument-count check:
`MOVE_ON_GYRO` has made and stored a channel by then if none was stored. -/
def afterCountError (s : Sys) (op : MoveOp) : Sys :=
  if op = MOVE_ON_GYRO ∧ s.d.moveChannel = none then
    { s with d := { s.d with moveChannel := some s.chans }, chans := s.chans + 1 }
  else s

/-- The brake/coast command matching `requested`, to the left then the right motor. -/
def brakeWrites (d : Drive) (requested : Bool) : List Event :=
  if requested then [.EnableBrakeMode d.leftMotor, .EnableBrakeMode d.rightMotor]
  else [.DisableBrakeMode d.leftMotor, .DisableBrakeMode d.rightMotor]

/-- A configured Drive used for concrete runs: motors on ports "B" and "C", a gyro. -/
def demo : Sys := freshDrive "B" "C" (some "gyro") false

/-- The channel bookkeeping of a state: the stored handle, the number of channels made,
the closed channels, the launched goroutines. -/
def Sys.core (s : Sys) : Option Nat × Nat × List Nat × List HoldLoop :=
  (s.d.moveChannel, s.chans, s.closed, s.loops)

/-- Well-formedness of the channel bookkeeping: the stored handle is a channel that was
made and is still open, a channel is closed at most once, and every launched goroutine
listens on a channel that was made and that is either closed or the stored handle. -/
structure Sys.WF (s : Sys) : Prop where
  stored_lt : ∀ c, s.d.moveChannel = some c → c < s.chans
  stored_open : ∀ c, s.d.moveChannel = some c → c ∉ s.closed
  closed_lt : ∀ c ∈ s.closed, c < s.chans
  closed_nodup : s.closed.Nodup
  loops_chan : ∀ t ∈ s.loops, ∃ c, t.chan = some c ∧ c < s.chans ∧
    (c ∉ s.closed → s.d.moveChannel = some c)

/-- A sequence of `MoveSteering` calls, each with the same fuel, whatever their outcome;
`none` if one of them runs out of fuel. -/
def callSeq (pf : Platform) (env : Nat → String) (fuel : Nat) :
    Sys → List (MoveOp × List GoVal) → Option Sys
  | s, [] => some s
  | s, (op, args) :: rest =>
    match MoveSteering pf env fuel s op args with
    | none => none
    | some (_, s1) => callSeq pf env fuel s1 rest

/-- Whether the `float32` product `float32(p) * float32(1.1)` is finite and truncates to
`11 * p / 10` (integer division truncating toward zero). -/
def holdNudgeOk (p : Int) : Bool :=
  match GoFloat.mul binary32 (int16ToF32 p) f32_1_1 with
  | .fin k =>
    Int.tdiv k (2 ^ unitExp) == Int.tdiv (11 * p) 10 &&
      (decide (-(2 ^ (16 - 1) : Int) ≤ Int.tdiv k (2 ^ unitExp)) &&
        decide (Int.tdiv k (2 ^ unitExp) < 2 ^ (16 - 1)))
  | _ => false

/-- The state a well-typed `MOVE_ON_GYRO angle power` call leaves behind: a channel is
made and stored if none was stored, both motors are run at `power/2`, and a goroutine is
launched on the stored channel. -/
def afterMoveOnGyro (s : Sys) (angle power0 : Int) : Sys :=
  let s1 :=
    if s.d.moveChannel = none then
      { s with d := { s.d with moveChannel := some s.chans }, chans := s.chans + 1 }
    else s
  { s1 with
    log := s1.log ++ [.Run s1.d.leftMotor (Int.tdiv (toInt16 power0) 2),
                      .Run s1.d.rightMotor (Int.tdiv (toInt16 power0) 2)]
    loops := s1.loops ++ [⟨s1.d.moveChannel, angle, toInt16 power0⟩] }

/-- Two `MOVE_ON_GYRO` calls in a row. -/
def twoGyroCalls : List (MoveOp × List GoVal) :=
  [(MOVE_ON_GYRO, [.int16 0, .int 50]), (MOVE_ON_GYRO, [.int16 0, .int 50])]

/-- The state a `MOVE_OFF brake` call leaves behind when it does not panic: brake mode
applied first; then either the stored channel closed and the handle cleared (with the
250 ms sleep and no `Stop`), or `Stop` on the left and then the right motor. -/
def afterMoveOff (s : Sys) (brake : Bool) : Sys :=
  match s.d.moveChannel with
  | some c =>
    { setBrakeMode s brake with
      closed := c :: s.closed
      d := { (setBrakeMode s brake).d with moveChannel := none }
      log := (setBrakeMode s brake).log ++ [.Sleep 250] }
  | none =>
    { setBrakeMode s brake with
      log := (setBrakeMode s brake).log ++
        [.Println "Stopping motors!", .Stop s.d.leftMotor, .Stop s.d.rightMotor] }

/-- The powers one round of the heading-hold loop is to command for sensor reading `h`,
target `t` and base power `p`, with `1.1 * p` truncated toward zero to an integer. -/
def nudgedPowers (h t p : Int) : Int × Int :=
  if h < t then (Int.tdiv (11 * p) 10, p)
  else if h > t then (p, Int.tdiv (11 * p) 10)
  else (p, p)

/-- The method `MoveOp.String`.  In the `default` branch `fmt.Sprintf("MOVE_?: %v", op)`
formats `op`, a `MoveOp`, with the verb `%v`; for an operand that has a `String` method
package `fmt` calls that method to obtain the text, so the branch calls `op.String()`
again.  Each call takes one unit of fuel; `none` means the fuel ran out. -/
def MoveOp.String : Nat → MoveOp → Option String
  | 0, _ => none
  | fuel + 1, op =>
    if op == MOVE_OFF then some "MOVE_OFF"
    else if op == MOVE_ON then some "MOVE_ON"
    else if op == MOVE_ON_GYRO then some "MOVE_ON_GYRO"
    else if op == MOVE_ON_SECONDS then some "MOVE_ON_SECONDS"
    else if op == MOVE_ON_DEGREES then some "MOVE_ON_DEGREES"
    else if op == MOVE_ON_ROTATIONS then some "MOVE_ON_ROTATIONS"
    else
      match MoveOp.String fuel op with
      | none => none
      | some text => some ("MOVE_?: " ++ text)

/-- The names of the six constants, in the order of `definedOps`. -/
def opNames : List String :=
  ["MOVE_OFF", "MOVE_ON", "MOVE_ON_GYRO", "MOVE_ON_SECONDS", "MOVE_ON_DEGREES",
    "MOVE_ON_ROTATIONS"]

/-- The state of `demo` after `MoveSteering(MOVE_ON_GYRO, int16(90))` was rejected for its
argument count: a channel has been made and stored. -/
def demoAfterRejectedGyro : Sys :=
  { demo with d := { demo.d with moveChannel := some 0 }, chans := 1 }

/-- The log of `k` rounds of the wait loop that find no idle motor: both motors are
polled, then the loop sleeps 250 ms. -/
def busyRounds (d : Drive) : Nat → List Event
  | 0 => []
  | k + 1 => [.ReadState d.leftMotor, .ReadState d.rightMotor, .Sleep 250] ++ busyRounds d k

/-- The log of the round on which the wait loop exits: the right motor is polled only
when the left motor is not idle. -/
def exitRound (d : Drive) (leftIdle : Bool) : List Event :=
  if leftIdle then [.ReadState d.leftMotor]
  else [.ReadState d.leftMotor, .ReadState d.rightMotor]

/-- The events a wait loop may log. -/
def Event.isWaitEvent (d : Drive) (e : Event) : Prop :=
  e = .ReadState d.leftMotor ∨ e = .ReadState d.rightMotor ∨ e = .Sleep 250

/-- An environment in which the left motor answers "running" and the right motor idle. -/
def rightIdleEnv : Nat → String := fun i => if i = 1 then "" else "running"

/-- An environment in which both motors answer "running" for three rounds and the left
motor answers idle on the fourth. -/
def idleAfterThree : Nat → String := fun i => if i < 6 then "running" else ""

/-- The log of the first part of `MOVE_ON_DEGREES` (before the wait loop): the brake-mode
writes of `setBrakeMode` if any, then `RunToRelPos` on the left and on the right motor. -/
def degreesCalls (pf : Platform) (s : Sys) (steering : GoFloat) (power degrees : Int)
    (brake : Bool) : List Event :=
  (if s.d.brakeModeValid = false ∨ brake ≠ s.d.brakeMode then brakeWrites s.d brake else []) ++
    [.RunToRelPos s.d.leftMotor
        (wheelPower pf (toInt16 power) (GoFloat.convert binary32 steering)) (toInt32 degrees),
     .RunToRelPos s.d.rightMotor
        (wheelPower pf (toInt16 power) (GoFloat.convert binary32 steering).neg)
        (toInt32 degrees)]

/-- The log of the first part of `MOVE_ON_SECONDS` (before the wait loop): the brake-mode
writes of `setBrakeMode` if any, then `RunTimed` on the left and on the right motor, both
for `int32(seconds * 1000)` milliseconds. -/
def secondsCalls (pf : Platform) (s : Sys) (steering : GoFloat) (power : Int)
    (seconds : GoFloat) (brake : Bool) : List Event :=
  (if s.d.brakeModeValid = false ∨ brake ≠ s.d.brakeMode then brakeWrites s.d brake else []) ++
    [.RunTimed s.d.leftMotor
        (wheelPower pf (toInt16 power) (GoFloat.convert binary32 steering))
        (floatToInt 32 pf.f64ToInt32 (GoFloat.mul binary64 seconds (GoFloat.ofInt 1000))),
     .RunTimed s.d.rightMotor
        (wheelPower pf (toInt16 power) (GoFloat.convert binary32 steering).neg)
        (floatToInt 32 pf.f64ToInt32 (GoFloat.mul binary64 seconds (GoFloat.ofInt 1000)))]

/-- The state of `demo` after a wait loop in `rightIdleEnv`: both motors were polled
once. -/
def demoAfterWait : Sys :=
  { demo with polls := 2, log := demo.log ++ [.ReadState "B", .ReadState "C"] }

/-- The arguments of `OnRotations(steering=10.0, power=50, rotations=2, brake=false)`. -/
def rotationsExample : List GoVal :=
  [.float64 (GoFloat.ofInt 10), .int 50, .int 2, .bool false]

/-- The arguments of `OnDegrees(steering=10.0, power=50, degrees=720, brake=false)`. -/
def degreesExample : List GoVal :=
  [.float64 (GoFloat.ofInt 10), .int 50, .int 720, .bool false]

/-- The finite values of `float32`, counted in units: `m * 2 ^ e0` with a significand `m`
of at most 24 bits and an exponent `e0` not below that of the smallest subnormal, below
the overflow threshold. -/
def isFloat32 (k : Int) : Prop :=
  ∃ (m : Int) (e0 : Nat), k = m * 2 ^ e0 ∧ m.natAbs < 2 ^ 24 ∧ binary32.qmin ≤ e0 ∧
    k.natAbs < 2 ^ binary32.emax

/-- The steering scale on whole percentages, in integers. -/
def scaleInt (n : Int) : Int := if n < 0 then 2 * n + 100 else 100

/-! ## Theorems -/

theorem MoveSteering_nil (pf : Platform) (env : Nat → String) (fuel : Nat) (s : Sys)
    (op : MoveOp) :
    MoveSteering pf env (fuel + 1) s op [] = some (.err "No op specified", s) := by
  simp [MoveSteering]

theorem expected_two :
    "Expected " ++ itoa 2 ++ " arguments, got " = "Expected 2 arguments, got " := by decide

theorem expected_four :
    "Expected " ++ itoa 4 ++ " arguments, got " = "Expected 4 arguments, got " := by decide

theorem mem_definedOps {op : MoveOp} (h : op ∈ definedOps) :
    op = 0 ∨ op = 1 ∨ op = 2 ∨ op = 3 ∨ op = 4 ∨ op = 5 := by
  simpa [definedOps, MOVE_OFF, MOVE_ON, MOVE_ON_GYRO, MOVE_ON_SECONDS, MOVE_ON_DEGREES,
    MOVE_ON_ROTATIONS] using h

/-- The argument-count check of each `case`. -/
theorem MoveSteering_badCount (pf : Platform) (env : Nat → String) (fuel : Nat) (s : Sys)
    (op : MoveOp) (args : List GoVal) (hop : op ∈ definedOps)
    (hlen : args.length ≠ (argTypes op).length) :
    MoveSteering pf env (fuel + 1) s op args =
      if args = [] then some (.err "No op specified", s)
      else some (.err (countError (argTypes op).length args.length), afterCountError s op) := by
  cases args with
  | nil => simp [MoveSteering]
  | cons a as =>
    rcases mem_definedOps hop with h | h | h | h | h | h <;> subst h <;>
      simp [argTypes, MOVE_OFF, MOVE_ON, MOVE_ON_GYRO, MOVE_ON_SECONDS, MOVE_ON_DEGREES,
        MOVE_ON_ROTATIONS] at hlen <;>
      simp [MoveSteering, argTypes, countError, afterCountError, MOVE_OFF, MOVE_ON,
        MOVE_ON_GYRO, MOVE_ON_SECONDS, MOVE_ON_DEGREES, MOVE_ON_ROTATIONS, hlen,
        expected_two, expected_four]


/-- C1 (as amended): for each of the six operations and every NON-EMPTY argument list
whose length differs from the operation's arity, `MoveSteering` returns the
argument-count error carrying the expected and the actual count; for the empty argument
list it returns the error "No op specified" instead, whatever the operation. -/
theorem C1_count_error (pf : Platform) (env : Nat → String) (fuel : Nat) (s : Sys)
    (op : MoveOp) (args : List GoVal) (hop : op ∈ definedOps)
    (hlen : args.length ≠ (argTypes op).length) :
    MoveSteering pf env (fuel + 1) s op args =
      if args = [] then some (.err "No op specified", s)
      else some (.err (countError (argTypes op).length args.length), afterCountError s op) :=
  MoveSteering_badCount pf env fuel s op args hop hlen

/-- C1, witness: `MOVE_ON` with one argument. -/
theorem C1_count_error_witness :
    MOVE_ON ∈ definedOps ∧ [GoVal.int 1].length ≠ (argTypes MOVE_ON).length ∧
    MoveSteering testPlatform idleEnv 1 demo MOVE_ON [.int 1] =
      some (.err "Expected 2 arguments, got 1", demo) :=
  ⟨by decide, by decide,
    (C1_count_error testPlatform idleEnv 0 demo MOVE_ON [.int 1] (by decide) (by decide)).trans
      (by decide)⟩

/-- C1, counterexample to the claim as stated: `MoveSteering(MOVE_ON)` with no arguments
returns "No op specified", which is not the argument-count error for expected 2,
actual 0. -/
theorem C1_counterexample :
    MoveSteering testPlatform idleEnv 1 demo MOVE_ON [] =
      some (.err "No op specified", demo) ∧
    "No op specified" ≠ countError 2 0 ∧ countError 2 0 = "Expected 2 arguments, got 0" := by
  refine ⟨by simp [MoveSteering], by decide, by decide⟩

/-- The `default` branch of the `switch`. -/
theorem MoveSteering_unknown (pf : Platform) (env : Nat → String) (fuel : Nat) (s : Sys)
    (op : MoveOp) (args : List GoVal) (hop : op ∉ definedOps) (hargs : args ≠ []) :
    MoveSteering pf env (fuel + 1) s op args = some (.err ("Unknown op: " ++ itoa op), s) := by
  cases args with
  | nil => exact absurd rfl hargs
  | cons a as =>
    simp only [definedOps, List.mem_cons, List.mem_singleton, not_or, List.not_mem_nil,
      or_false] at hop
    obtain ⟨h0, h1, h2, h3, h4, h5⟩ := hop
    simp [MoveSteering, h0, h1, h2, h3, h4, h5]

/-- C2 (as amended): for every `MoveOp` value that is not one of the six constants and
every NON-EMPTY argument list, `MoveSteering` returns the error "Unknown op: n" and
leaves the state unchanged. -/
theorem C2_unknown_op (pf : Platform) (env : Nat → String) (fuel : Nat) (s : Sys)
    (op : MoveOp) (args : List GoVal) (hop : op ∉ definedOps) (hargs : args ≠ []) :
    MoveSteering pf env (fuel + 1) s op args = some (.err ("Unknown op: " ++ itoa op), s) :=
  MoveSteering_unknown pf env fuel s op args hop hargs

/-- C2, witness: operation 6 with one argument. -/
theorem C2_unknown_op_witness :
    (6 : MoveOp) ∉ definedOps ∧ [GoVal.bool true] ≠ [] ∧
    MoveSteering testPlatform idleEnv 1 demo 6 [.bool true] =
      some (.err "Unknown op: 6", demo) :=
  ⟨by decide, by decide,
    (C2_unknown_op testPlatform idleEnv 0 demo 6 [.bool true] (by decide) (by decide)).trans
      (by decide)⟩

/-- C2, counterexample to the claim as stated: operation 6 with the empty argument list
returns "No op specified", not the unknown-operation error. -/
theorem C2_counterexample :
    (6 : MoveOp) ∉ definedOps ∧
    MoveSteering testPlatform idleEnv 1 demo 6 [] = some (.err "No op specified", demo) ∧
    "No op specified" ≠ "Unknown op: " ++ itoa 6 := by
  refine ⟨by decide, by simp [MoveSteering], by decide⟩

/-- C5: `setBrakeMode requested` logs the brake/coast command matching `requested` (left
motor, then right motor) when the stored state is not valid, whatever `brakeMode` holds,
and when it is valid exactly if `requested` differs from the stored `brakeMode`;
otherwise it logs nothing.  Afterwards the stored state is valid with
`brakeMode = requested` and nothing else has changed.  Hence a second call with the same
value logs nothing and a call with the opposite value logs its command. -/
theorem C5_setBrakeMode (s : Sys) (requested : Bool) :
    (setBrakeMode s requested).log =
      s.log ++ (if s.d.brakeModeValid = false ∨ requested ≠ s.d.brakeMode
                then brakeWrites s.d requested else []) ∧
    (setBrakeMode s requested).d =
      { s.d with brakeModeValid := true, brakeMode := requested } ∧
    setBrakeMode s requested =
      { s with d := (setBrakeMode s requested).d, log := (setBrakeMode s requested).log } ∧
    (setBrakeMode (setBrakeMode s requested) requested).log = (setBrakeMode s requested).log ∧
    (setBrakeMode (setBrakeMode s requested) (!requested)).log =
      (setBrakeMode s requested).log ++ brakeWrites s.d (!requested) := by
  obtain ⟨⟨l, r, v, b, m, g⟩, ch, cl, lp, po, lg⟩ := s
  cases v <;> cases b <;> cases requested <;>
    simp [setBrakeMode, Sys.emit, brakeWrites]


/-- A failed type assertion: for each of the six operations and every argument list of
the right length in which some argument has another dynamic type than the `case` asserts,
`MoveSteering` panics; the log is untouched (`MOVE_ON_GYRO` has stored a channel by
then if none was stored). -/
theorem MoveSteering_illTyped (pf : Platform) (env : Nat → String) (fuel : Nat) (s : Sys)
    (op : MoveOp) (args : List GoVal) (hop : op ∈ definedOps)
    (hlen : args.length = (argTypes op).length)
    (hty : args.map GoVal.type ≠ argTypes op) :
    MoveSteering pf env (fuel + 2) s op args = some (.panic, afterCountError s op) := by
  rcases mem_definedOps hop with h | h | h | h | h | h <;> subst h <;>
    simp [argTypes, MOVE_OFF, MOVE_ON, MOVE_ON_GYRO, MOVE_ON_SECONDS, MOVE_ON_DEGREES,
      MOVE_ON_ROTATIONS] at hlen hty
  · rcases args with _ | ⟨a0, _ | ⟨a1, rest⟩⟩ <;> simp at hlen
    cases a0 <;>
      simp_all [MoveSteering, GoVal.asBool, afterCountError, MOVE_OFF, MOVE_ON_GYRO, GoVal.type]
  · rcases args with _ | ⟨a0, _ | ⟨a1, _ | ⟨a2, rest⟩⟩⟩ <;> simp at hlen
    cases a0 <;>
      first
      | (simp [MoveSteering, GoVal.asFloat64, afterCountError, MOVE_OFF, MOVE_ON,
          MOVE_ON_GYRO]; done)
      | (cases a1 <;>
          simp_all [MoveSteering, GoVal.asFloat64, GoVal.asInt, afterCountError, MOVE_OFF,
            MOVE_ON, MOVE_ON_GYRO, GoVal.type])
  · rcases args with _ | ⟨a0, _ | ⟨a1, _ | ⟨a2, rest⟩⟩⟩ <;> simp at hlen
    cases a0 <;>
      first
      | (simp [MoveSteering, GoVal.asInt16, afterCountError, MOVE_OFF, MOVE_ON,
          MOVE_ON_GYRO]; done)
      | (cases a1 <;>
          simp_all [MoveSteering, GoVal.asInt16, GoVal.asInt, afterCountError, MOVE_OFF,
            MOVE_ON, MOVE_ON_GYRO, GoVal.type])
  · rcases args with _ | ⟨a0, _ | ⟨a1, _ | ⟨a2, _ | ⟨a3, _ | ⟨a4, rest⟩⟩⟩⟩⟩ <;> simp at hlen
    cases a0 <;>
      first
      | (simp [MoveSteering, GoVal.asFloat64, afterCountError, MOVE_OFF, MOVE_ON,
          MOVE_ON_GYRO, MOVE_ON_SECONDS, MOVE_ON_DEGREES, MOVE_ON_ROTATIONS]; done)
      | (cases a1 <;>
          first
          | (simp [MoveSteering, GoVal.asFloat64, GoVal.asInt, afterCountError, MOVE_OFF,
              MOVE_ON, MOVE_ON_GYRO, MOVE_ON_SECONDS, MOVE_ON_DEGREES, MOVE_ON_ROTATIONS]; done)
          | (cases a2 <;>
              first
              | (simp [MoveSteering, GoVal.asFloat64, GoVal.asInt, afterCountError, MOVE_OFF,
                  MOVE_ON, MOVE_ON_GYRO, MOVE_ON_SECONDS, MOVE_ON_DEGREES,
                  MOVE_ON_ROTATIONS]; done)
              | (cases a3 <;>
                  simp_all [MoveSteering, GoVal.asFloat64, GoVal.asInt, GoVal.asBool,
                    afterCountError, MOVE_OFF, MOVE_ON, MOVE_ON_GYRO, MOVE_ON_SECONDS,
                    MOVE_ON_DEGREES, MOVE_ON_ROTATIONS, GoVal.type])))
  · rcases args with _ | ⟨a0, _ | ⟨a1, _ | ⟨a2, _ | ⟨a3, _ | ⟨a4, rest⟩⟩⟩⟩⟩ <;> simp at hlen
    cases a0 <;>
      first
      | (simp [MoveSteering, GoVal.asFloat64, afterCountError, MOVE_OFF, MOVE_ON,
          MOVE_ON_GYRO, MOVE_ON_SECONDS, MOVE_ON_DEGREES, MOVE_ON_ROTATIONS]; done)
      | (cases a1 <;>
          first
          | (simp [MoveSteering, GoVal.asFloat64, GoVal.asInt, afterCountError, MOVE_OFF,
              MOVE_ON, MOVE_ON_GYRO, MOVE_ON_SECONDS, MOVE_ON_DEGREES, MOVE_ON_ROTATIONS]; done)
          | (cases a2 <;>
              first
              | (simp [MoveSteering, GoVal.asFloat64, GoVal.asInt, afterCountError, MOVE_OFF,
                  MOVE_ON, MOVE_ON_GYRO, MOVE_ON_SECONDS, MOVE_ON_DEGREES,
                  MOVE_ON_ROTATIONS]; done)
              | (cases a3 <;>
                  simp_all [MoveSteering, GoVal.asFloat64, GoVal.asInt, GoVal.asBool,
                    afterCountError, MOVE_OFF, MOVE_ON, MOVE_ON_GYRO, MOVE_ON_SECONDS,
                    MOVE_ON_DEGREES, MOVE_ON_ROTATIONS, GoVal.type])))
  · rcases args with _ | ⟨a0, _ | ⟨a1, _ | ⟨a2, _ | ⟨a3, _ | ⟨a4, rest⟩⟩⟩⟩⟩ <;> simp at hlen
    cases a2 <;>
      first
      | (simp [MoveSteering, GoVal.asInt, afterCountError, MOVE_OFF, MOVE_ON,
          MOVE_ON_GYRO, MOVE_ON_SECONDS, MOVE_ON_DEGREES, MOVE_ON_ROTATIONS]; done)
      | (cases a0 <;>
          first
          | (simp [MoveSteering, GoVal.asFloat64, GoVal.asInt, afterCountError, MOVE_OFF,
              MOVE_ON, MOVE_ON_GYRO, MOVE_ON_SECONDS, MOVE_ON_DEGREES, MOVE_ON_ROTATIONS]; done)
          | (cases a1 <;>
              first
              | (simp [MoveSteering, GoVal.asFloat64, GoVal.asInt, afterCountError, MOVE_OFF,
                  MOVE_ON, MOVE_ON_GYRO, MOVE_ON_SECONDS, MOVE_ON_DEGREES,
                  MOVE_ON_ROTATIONS]; done)
              | (cases a3 <;>
                  simp_all [MoveSteering, GoVal.asFloat64, GoVal.asInt, GoVal.asBool,
                    afterCountError, MOVE_OFF, MOVE_ON, MOVE_ON_GYRO, MOVE_ON_SECONDS,
                    MOVE_ON_DEGREES, MOVE_ON_ROTATIONS, GoVal.type])))


theorem afterCountError_log (s : Sys) (op : MoveOp) : (afterCountError s op).log = s.log := by
  unfold afterCountError
  split <;> rfl

theorem argTypes_undefined {op : MoveOp} (hop : op ∉ definedOps) : argTypes op = [] := by
  simp only [definedOps, List.mem_cons, List.mem_singleton, not_or, List.not_mem_nil,
    or_false] at hop
  obtain ⟨h0, h1, h2, h3, h4, h5⟩ := hop
  simp [argTypes, h0, h1, h2, h3, h4, h5]

/-- C3: for every operation and every argument list with the wrong number of arguments
or a wrong-typed argument, `MoveSteering` fails (it returns an error or panics, it does
not return `nil`) and logs nothing: no hardware call is issued. -/
theorem C3_no_hardware_calls (pf : Platform) (env : Nat → String) (fuel : Nat) (s : Sys)
    (op : MoveOp) (args : List GoVal)
    (hbad : args.length ≠ (argTypes op).length ∨ args.map GoVal.type ≠ argTypes op) :
    ∃ out s1, MoveSteering pf env (fuel + 2) s op args = some (out, s1) ∧
      out ≠ .ok ∧ s1.log = s.log := by
  by_cases hop : op ∈ definedOps
  · by_cases hlen : args.length = (argTypes op).length
    · have hty : args.map GoVal.type ≠ argTypes op := hbad.resolve_left (fun h => h hlen)
      exact ⟨.panic, afterCountError s op, MoveSteering_illTyped pf env fuel s op args hop hlen hty,
        by simp, afterCountError_log s op⟩
    · have h := MoveSteering_badCount pf env (fuel + 1) s op args hop hlen
      by_cases hnil : args = []
      · rw [if_pos hnil] at h
        exact ⟨_, _, h, by simp, rfl⟩
      · rw [if_neg hnil] at h
        exact ⟨_, _, h, by simp, afterCountError_log s op⟩
  · have hargs : args ≠ [] := by
      intro h
      subst h
      rw [argTypes_undefined hop] at hbad
      simp at hbad
    exact ⟨_, _, MoveSteering_unknown pf env (fuel + 1) s op args hop hargs, by simp, rfl⟩

/-- C3, witness: `MOVE_ON_DEGREES` with a string where the brake flag belongs. -/
theorem C3_no_hardware_calls_witness :
    ([GoVal.float64 (GoFloat.ofInt 10), .int 50, .int 720, .string "yes"].length ≠
        (argTypes MOVE_ON_DEGREES).length ∨
      [GoVal.float64 (GoFloat.ofInt 10), .int 50, .int 720, .string "yes"].map GoVal.type ≠
        argTypes MOVE_ON_DEGREES) ∧
    ∃ out s1, MoveSteering testPlatform idleEnv 2 demo MOVE_ON_DEGREES
        [.float64 (GoFloat.ofInt 10), .int 50, .int 720, .string "yes"] = some (out, s1) ∧
      out ≠ .ok ∧ s1.log = demo.log :=
  ⟨Or.inr (by decide),
    C3_no_hardware_calls testPlatform idleEnv 0 demo MOVE_ON_DEGREES _ (Or.inr (by decide))⟩

/-- C4 (as amended): for each of the six operations and every argument list of the
correct length in which some argument does not have the type the operation's type
assertion demands, `MoveSteering` panics on the failed type assertion: it returns no
error value.  Nothing is logged on the way. -/
theorem C4_type_assertion_panics (pf : Platform) (env : Nat → String) (fuel : Nat) (s : Sys)
    (op : MoveOp) (args : List GoVal) (hop : op ∈ definedOps)
    (hlen : args.length = (argTypes op).length)
    (hty : args.map GoVal.type ≠ argTypes op) :
    MoveSteering pf env (fuel + 2) s op args = some (.panic, afterCountError s op) ∧
      (afterCountError s op).log = s.log :=
  ⟨MoveSteering_illTyped pf env fuel s op args hop hlen hty, afterCountError_log s op⟩

/-- C4, witness: `MOVE_ON` with an `int` steering. -/
theorem C4_type_assertion_panics_witness :
    MOVE_ON ∈ definedOps ∧ [GoVal.int 10, GoVal.int 50].length = (argTypes MOVE_ON).length ∧
    [GoVal.int 10, GoVal.int 50].map GoVal.type ≠ argTypes MOVE_ON ∧
    MoveSteering testPlatform idleEnv 2 demo MOVE_ON [.int 10, .int 50] = some (.panic, demo) :=
  ⟨by decide, by decide, by decide,
    ((C4_type_assertion_panics testPlatform idleEnv 0 demo MOVE_ON [.int 10, .int 50]
      (by decide) (by decide) (by decide)).1).trans (by decide)⟩

/-- C4, counterexample to the claim as stated: `MoveSteering(MOVE_OFF, 1)`, a non-bool
brake, panics; it does not return an error value. -/
theorem C4_counterexample :
    [GoVal.int 1].length = (argTypes MOVE_OFF).length ∧
    [GoVal.int 1].map GoVal.type ≠ argTypes MOVE_OFF ∧
    MoveSteering testPlatform idleEnv 2 demo MOVE_OFF [.int 1] = some (.panic, demo) ∧
    ∀ msg s1, MoveSteering testPlatform idleEnv 2 demo MOVE_OFF [.int 1] ≠ some (.err msg, s1) := by
  have h : MoveSteering testPlatform idleEnv 2 demo MOVE_OFF [.int 1] = some (.panic, demo) := by
    simp [MoveSteering, GoVal.asBool, MOVE_OFF]
  refine ⟨by decide, by decide, h, ?_⟩
  intro msg s1
  rw [h]
  simp


theorem setBrakeMode_core (s : Sys) (b : Bool) : (setBrakeMode s b).core = s.core := by
  obtain ⟨⟨l, r, v, bm, m, g⟩, ch, cl, lp, po, lg⟩ := s
  cases v <;> cases bm <;> cases b <;> simp [setBrakeMode, Sys.emit, Sys.core]

theorem setBrakeMode_moveChannel (s : Sys) (b : Bool) :
    (setBrakeMode s b).d.moveChannel = s.d.moveChannel :=
  congrArg (fun x => x.1) (setBrakeMode_core s b)

theorem setBrakeMode_chans (s : Sys) (b : Bool) : (setBrakeMode s b).chans = s.chans :=
  congrArg (fun x => x.2.1) (setBrakeMode_core s b)

theorem setBrakeMode_closed (s : Sys) (b : Bool) : (setBrakeMode s b).closed = s.closed :=
  congrArg (fun x => x.2.2.1) (setBrakeMode_core s b)

theorem setBrakeMode_loops (s : Sys) (b : Bool) : (setBrakeMode s b).loops = s.loops :=
  congrArg (fun x => x.2.2.2) (setBrakeMode_core s b)

theorem emit_core (s : Sys) (es : List Event) : (s.emit es).core = s.core := rfl

theorem waitLoop_core (env : Nat → String) (fuel : Nat) (s s1 : Sys)
    (h : waitLoop env fuel s = some s1) : s1.core = s.core := by
  induction fuel generalizing s with
  | zero => simp [waitLoop] at h
  | succ n ih =>
    rw [waitLoop] at h
    split at h
    · cases h; rfl
    · split at h
      · cases h; rfl
      · exact (ih _ h).trans rfl

/-- The `case MOVE_ON_DEGREES` leaves the channel bookkeeping alone. -/
theorem MoveSteering_degrees_core (pf : Platform) (env : Nat → String) (fuel : Nat)
    (s s1 : Sys) (args : List GoVal) (out : Outcome)
    (h : MoveSteering pf env fuel s MOVE_ON_DEGREES args = some (out, s1)) :
    s1.core = s.core := by
  cases fuel with
  | zero => simp [MoveSteering] at h
  | succ n =>
    simp [MoveSteering, MOVE_OFF, MOVE_ON, MOVE_ON_GYRO, MOVE_ON_DEGREES] at h
    repeat' split at h
    all_goals first
      | (cases h; rfl)
      | (cases h; done)
      | (rename_i hw; cases h
         exact (waitLoop_core env _ _ _ hw).trans
           ((emit_core _ _).trans (setBrakeMode_core _ _)))


/-- What one `MoveSteering` call can do to the channel bookkeeping: nothing; close the
stored channel and clear the handle (`MOVE_OFF`); make and store a channel
(`MOVE_ON_GYRO` that fails afterwards); launch a goroutine on the stored channel, made on
the spot if none was stored (`MOVE_ON_GYRO`). -/
theorem MoveSteering_core_cases (pf : Platform) (env : Nat → String) (fuel : Nat)
    (s s1 : Sys) (op : MoveOp) (args : List GoVal) (out : Outcome)
    (h : MoveSteering pf env fuel s op args = some (out, s1)) :
    s1.core = s.core ∨
    (∃ c, s.d.moveChannel = some c ∧ c ∉ s.closed ∧
      s1.core = (none, s.chans, c :: s.closed, s.loops)) ∨
    (s.d.moveChannel = none ∧ s1.core = (some s.chans, s.chans + 1, s.closed, s.loops)) ∨
    (∃ c a p, s.d.moveChannel = some c ∧
      s1.core = (some c, s.chans, s.closed, s.loops ++ [⟨some c, a, p⟩])) ∨
    (∃ a p, s.d.moveChannel = none ∧
      s1.core = (some s.chans, s.chans + 1, s.closed, s.loops ++ [⟨some s.chans, a, p⟩])) := by
  cases fuel with
  | zero => simp [MoveSteering] at h
  | succ n =>
    by_cases h0 : op = 0
    · subst h0
      simp [MoveSteering, MOVE_OFF] at h
      repeat' split at h
      all_goals try (cases h; exact Or.inl rfl)
      all_goals try (cases h; exact Or.inl (setBrakeMode_core _ _))
      all_goals
        rename_i hc hopen
        cases h
        rw [setBrakeMode_moveChannel] at hc
        rw [setBrakeMode_closed] at hopen
        exact Or.inr (Or.inl ⟨_, hc, hopen, by
          simp [Sys.core, Sys.emit, setBrakeMode_chans, setBrakeMode_closed,
            setBrakeMode_loops]⟩)
    by_cases h1 : op = 1
    · subst h1
      simp [MoveSteering, MOVE_OFF, MOVE_ON] at h
      repeat' split at h
      all_goals try (cases h; exact Or.inl rfl)
    by_cases h2 : op = 2
    · subst h2
      simp [MoveSteering, MOVE_OFF, MOVE_ON, MOVE_ON_GYRO] at h
      repeat' split at h
      all_goals try (cases h; exact Or.inl rfl)
      all_goals
        rename_i hm
        cases h
        first
          | exact Or.inr (Or.inr (Or.inl ⟨hm, rfl⟩))
          | exact Or.inr (Or.inr (Or.inr (Or.inr ⟨_, _, hm, rfl⟩)))
          | (obtain ⟨c, hc⟩ := Option.ne_none_iff_exists'.mp hm
             exact Or.inr (Or.inr (Or.inr (Or.inl ⟨c, _, _, hc, by
               simp [Sys.core, Sys.emit, hc]
               exact ⟨rfl, rfl⟩⟩))))
    by_cases h3 : op = 3
    · subst h3
      simp [MoveSteering, MOVE_OFF, MOVE_ON, MOVE_ON_GYRO, MOVE_ON_DEGREES, MOVE_ON_SECONDS,
        MOVE_ON_ROTATIONS] at h
      repeat' split at h
      all_goals try (cases h; done)
      all_goals try (cases h; exact Or.inl rfl)
      all_goals try
        (rename_i hw; cases h
         exact Or.inl ((waitLoop_core env _ _ _ hw).trans
           ((emit_core _ _).trans (setBrakeMode_core _ _))))
    by_cases h4 : op = 4
    · subst h4
      exact Or.inl (MoveSteering_degrees_core pf env _ s s1 args out h)
    by_cases h5 : op = 5
    · subst h5
      simp [MoveSteering, MOVE_OFF, MOVE_ON, MOVE_ON_GYRO, MOVE_ON_DEGREES, MOVE_ON_SECONDS,
        MOVE_ON_ROTATIONS] at h
      repeat' split at h
      all_goals try (cases h; done)
      all_goals try (cases h; exact Or.inl rfl)
      all_goals
        rename_i hrec
        cases h
        exact Or.inl (MoveSteering_degrees_core pf env _ _ _ _ _ hrec)
    · simp [MoveSteering, MOVE_OFF, MOVE_ON, MOVE_ON_GYRO, MOVE_ON_DEGREES, MOVE_ON_SECONDS,
        MOVE_ON_ROTATIONS, h0, h1, h2, h3, h4, h5] at h
      repeat' split at h
      all_goals try (cases h; exact Or.inl rfl)

theorem WF_fresh (l r : OutPort) (g : Option GyroSensor) (reg : Bool) :
    (freshDrive l r g reg).WF := by
  cases reg <;>
    exact ⟨by simp [freshDrive, Configure, Sys.zero, Sys.emit],
      by simp [freshDrive, Configure, Sys.zero, Sys.emit],
      by simp [freshDrive, Configure, Sys.zero, Sys.emit],
      by simp [freshDrive, Configure, Sys.zero, Sys.emit],
      by simp [freshDrive, Configure, Sys.zero, Sys.emit]⟩

/-- Every `MoveSteering` call keeps the channel bookkeeping well-formed. -/
theorem WF_step (pf : Platform) (env : Nat → String) (fuel : Nat)
    (s s1 : Sys) (op : MoveOp) (args : List GoVal) (out : Outcome) (hwf : s.WF)
    (hstep : MoveSteering pf env fuel s op args = some (out, s1)) : s1.WF := by
  rcases MoveSteering_core_cases pf env fuel s s1 op args out hstep with
    h | ⟨c, hm, hop, h⟩ | ⟨hm, h⟩ | ⟨c, a, p, hm, h⟩ | ⟨a, p, hm, h⟩ <;>
    simp only [Sys.core, Prod.mk.injEq] at h <;>
    obtain ⟨e1, e2, e3, e4⟩ := h
  · refine ⟨?_, ?_, ?_, ?_, ?_⟩ <;> simp only [e1, e2, e3, e4]
    · exact hwf.stored_lt
    · exact hwf.stored_open
    · exact hwf.closed_lt
    · exact hwf.closed_nodup
    · exact hwf.loops_chan
  · refine ⟨?_, ?_, ?_, ?_, ?_⟩ <;> simp only [e1, e2, e3, e4]
    · intro c1 h1; cases h1
    · intro c1 h1; cases h1
    · intro c1 h1
      rcases List.mem_cons.mp h1 with h2 | h2
      · subst h2; exact hwf.stored_lt _ hm
      · exact hwf.closed_lt _ h2
    · exact List.nodup_cons.mpr ⟨hop, hwf.closed_nodup⟩
    · intro t ht
      obtain ⟨c1, hc1, hlt, himp⟩ := hwf.loops_chan t ht
      refine ⟨c1, hc1, hlt, ?_⟩
      intro hnot
      have hnc : c1 ∉ s.closed := fun hmem => hnot (List.mem_cons_of_mem _ hmem)
      have hsc := himp hnc
      rw [hm] at hsc
      cases hsc
      exact absurd (List.mem_cons_self _ _) hnot
  · refine ⟨?_, ?_, ?_, ?_, ?_⟩ <;> simp only [e1, e2, e3, e4]
    · intro c1 h1; cases h1; exact Nat.lt_succ_self _
    · intro c1 h1; cases h1
      exact fun hmem => Nat.lt_irrefl _ (hwf.closed_lt _ hmem)
    · intro c1 h1; exact Nat.lt_succ_of_lt (hwf.closed_lt _ h1)
    · exact hwf.closed_nodup
    · intro t ht
      obtain ⟨c1, hc1, hlt, himp⟩ := hwf.loops_chan t ht
      refine ⟨c1, hc1, Nat.lt_succ_of_lt hlt, ?_⟩
      intro hnot
      have hsc := himp hnot
      rw [hm] at hsc
      cases hsc
  · refine ⟨?_, ?_, ?_, ?_, ?_⟩ <;> simp only [e1, e2, e3, e4]
    · intro c1 h1; cases h1; exact hwf.stored_lt _ hm
    · intro c1 h1; cases h1; exact hwf.stored_open _ hm
    · exact hwf.closed_lt
    · exact hwf.closed_nodup
    · intro t ht
      rcases List.mem_append.mp ht with h2 | h2
      · obtain ⟨c1, hc1, hlt, himp⟩ := hwf.loops_chan t h2
        exact ⟨c1, hc1, hlt, fun hnot => by rw [← hm]; exact himp hnot⟩
      · rw [List.mem_singleton] at h2
        subst h2
        exact ⟨c, rfl, hwf.stored_lt _ hm, fun _ => rfl⟩
  · refine ⟨?_, ?_, ?_, ?_, ?_⟩ <;> simp only [e1, e2, e3, e4]
    · intro c1 h1; cases h1; exact Nat.lt_succ_self _
    · intro c1 h1; cases h1
      exact fun hmem => Nat.lt_irrefl _ (hwf.closed_lt _ hmem)
    · intro c1 h1; exact Nat.lt_succ_of_lt (hwf.closed_lt _ h1)
    · exact hwf.closed_nodup
    · intro t ht
      rcases List.mem_append.mp ht with h2 | h2
      · obtain ⟨c1, hc1, hlt, himp⟩ := hwf.loops_chan t h2
        refine ⟨c1, hc1, Nat.lt_succ_of_lt hlt, ?_⟩
        intro hnot
        have hsc := himp hnot
        rw [hm] at hsc
        cases hsc
      · rw [List.mem_singleton] at h2
        subst h2
        exact ⟨s.chans, rfl, Nat.lt_succ_self _, fun _ => rfl⟩

/-- Every reachable state has well-formed channel bookkeeping. -/
theorem Reachable.wf {pf : Platform} {env : Nat → String} {s : Sys}
    (h : Reachable pf env s) : s.WF := by
  induction h with
  | fresh l r g reg => exact WF_fresh l r g reg
  | call fuel op args _ hstep ih => exact WF_step pf env fuel _ _ op args _ ih hstep


theorem setBrakeMode_d (s : Sys) (b : Bool) :
    (setBrakeMode s b).d = { s.d with brakeModeValid := true, brakeMode := b } := by
  obtain ⟨⟨l, r, v, bm, m, g⟩, ch, cl, lp, po, lg⟩ := s
  cases v <;> cases bm <;> cases b <;> simp [setBrakeMode, Sys.emit]

/-- The `case MOVE_OFF` with a bool argument, when the stored channel (if any) is open. -/
theorem MoveSteering_off (pf : Platform) (env : Nat → String) (fuel : Nat) (s : Sys)
    (brake : Bool) (hopen : ∀ c, s.d.moveChannel = some c → c ∉ s.closed) :
    MoveSteering pf env (fuel + 1) s MOVE_OFF [.bool brake] =
      some (.ok, afterMoveOff s brake) := by
  have hd := setBrakeMode_d s brake
  have hcl := setBrakeMode_closed s brake
  cases hm : s.d.moveChannel with
  | none =>
    have hm1 : (setBrakeMode s brake).d.moveChannel = none := by
      rw [setBrakeMode_moveChannel]; exact hm
    simp [MoveSteering, MOVE_OFF, GoVal.asBool, afterMoveOff, hm, hm1, Sys.emit, hd]
  | some c =>
    have hm1 : (setBrakeMode s brake).d.moveChannel = some c := by
      rw [setBrakeMode_moveChannel]; exact hm
    have hc : c ∉ (setBrakeMode s brake).closed := by
      rw [hcl]; exact hopen c hm
    simp [MoveSteering, MOVE_OFF, GoVal.asBool, afterMoveOff, hm, hm1, hopen c hm, Sys.emit,
      hcl]

/-- C6: on every reachable Drive, `MoveSteering(MOVE_OFF, brake)` returns no error and
leaves the state `afterMoveOff`: `setBrakeMode(brake)` is applied first; then, if a
heading-hold handle is stored, its channel is closed, the handle is cleared to nil and no
`Stop` is logged; if none is stored, `Stop` is logged for the left and then the right
motor. -/
theorem C6_move_off (pf : Platform) (env : Nat → String) (fuel : Nat) (s : Sys)
    (brake : Bool) (hr : Reachable pf env s) :
    MoveSteering pf env (fuel + 1) s MOVE_OFF [.bool brake] =
      some (.ok, afterMoveOff s brake) :=
  MoveSteering_off pf env fuel s brake hr.wf.stored_open

/-- C6, witness: `MOVE_OFF true` on the freshly configured Drive `demo`. -/
theorem C6_move_off_witness :
    Reachable testPlatform idleEnv demo ∧
    MoveSteering testPlatform idleEnv 1 demo MOVE_OFF [.bool true] =
      some (.ok, { demo with
        d := { demo.d with brakeModeValid := true, brakeMode := true }
        log := demo.log ++ [.EnableBrakeMode "B", .EnableBrakeMode "C",
          .Println "Stopping motors!", .Stop "B", .Stop "C"] }) :=
  ⟨Reachable.fresh _ _ _ _,
    (C6_move_off testPlatform idleEnv 0 demo true (Reachable.fresh _ _ _ _)).trans (by decide)⟩

/-- C9, the code at the failing input: with the target heading given as an `int`,
`MoveSteering(MOVE_ON_GYRO, 90, 50)` on a Drive with no active heading-hold task panics at
the type assertion `args[0].(int16)`: no `Run` is logged and no goroutine is launched,
while a channel has already been made and stored. -/
theorem C9_int_heading_panics :
    MoveSteering testPlatform idleEnv 1 demo MOVE_ON_GYRO [.int 90, .int 50] =
      some (.panic, { demo with d := { demo.d with moveChannel := some 0 }, chans := 1 }) ∧
    demo.d.moveChannel = none ∧ activeLoops demo = [] := by
  decide


/-- The `case MOVE_ON_GYRO` with an `int16` heading and an `int` power. -/
theorem MoveSteering_gyro (pf : Platform) (env : Nat → String) (fuel : Nat) (s : Sys)
    (angle power0 : Int) :
    MoveSteering pf env (fuel + 1) s MOVE_ON_GYRO [.int16 angle, .int power0] =
      some (.ok, afterMoveOnGyro s angle power0) := by
  by_cases hm : s.d.moveChannel = none <;>
    simp [MoveSteering, MOVE_OFF, MOVE_ON, MOVE_ON_GYRO, GoVal.asInt16, GoVal.asInt,
      afterMoveOnGyro, Sys.emit, hm]

theorem cancelled_congr {s s1 : Sys} (h : s1.closed = s.closed) (t : HoldLoop) :
    t.cancelled s1 = t.cancelled s := by
  unfold HoldLoop.cancelled
  rw [h]

theorem callSeq_reachable (pf : Platform) (env : Nat → String) (fuel : Nat)
    (calls : List (MoveOp × List GoVal)) :
    ∀ s s1, Reachable pf env s → callSeq pf env fuel s calls = some s1 →
      Reachable pf env s1 := by
  induction calls with
  | nil =>
    intro s s1 hr h
    simp [callSeq] at h
    exact h ▸ hr
  | cons c rest ih =>
    intro s s1 hr h
    obtain ⟨op, args⟩ := c
    cases hstep : MoveSteering pf env fuel s op args with
    | none => simp [callSeq, hstep] at h
    | some r =>
      obtain ⟨out, s2⟩ := r
      simp [callSeq, hstep] at h
      exact ih s2 s1 (Reachable.call fuel op args hr hstep) h

/-- C7 (as amended): in every state reachable from a freshly configured Drive by any
sequence of `MoveSteering` calls, every active heading-hold loop listens on the one
channel stored in `moveChannel` (so there is no active loop when no handle is stored, and
closing that channel signals all of them); the loops are not limited to one: a
`MOVE_ON_GYRO` issued in any such state, also while a loop is active, launches one more
loop alongside the active ones, on the stored channel. -/
theorem C7_active_loops_share_handle (pf : Platform) (env : Nat → String) (s : Sys)
    (hr : Reachable pf env s) :
    (∀ t ∈ activeLoops s, t.chan = s.d.moveChannel ∧ s.d.moveChannel ≠ none) ∧
    ∀ (fuel : Nat) (angle power : Int), ∃ s1,
      MoveSteering pf env (fuel + 1) s MOVE_ON_GYRO [.int16 angle, .int power] =
        some (.ok, s1) ∧
      activeLoops s1 = activeLoops s ++ [⟨s1.d.moveChannel, angle, toInt16 power⟩] := by
  have hwf := hr.wf
  constructor
  · intro t ht
    simp only [activeLoops, List.mem_filter, Bool.not_eq_true'] at ht
    obtain ⟨hmem, hnc⟩ := ht
    obtain ⟨c, hc, _, himp⟩ := hwf.loops_chan t hmem
    have hopen : c ∉ s.closed := by
      intro hcl
      simp [HoldLoop.cancelled, hc, hcl] at hnc
    have hsc := himp hopen
    exact ⟨by rw [hc, hsc], by rw [hsc]; simp⟩
  · intro fuel angle power
    have hstep := MoveSteering_gyro pf env fuel s angle power
    refine ⟨afterMoveOnGyro s angle power, hstep, ?_⟩
    have hwf1 := WF_step pf env _ s _ _ _ _ hwf hstep
    have hcl : (afterMoveOnGyro s angle power).closed = s.closed := by
      unfold afterMoveOnGyro
      split <;> rfl
    have hloops : (afterMoveOnGyro s angle power).loops =
        s.loops ++ [⟨(afterMoveOnGyro s angle power).d.moveChannel, angle, toInt16 power⟩] := by
      unfold afterMoveOnGyro
      split <;> rfl
    have hnew : (HoldLoop.cancelled (afterMoveOnGyro s angle power)
        ⟨(afterMoveOnGyro s angle power).d.moveChannel, angle, toInt16 power⟩) = false := by
      cases hm : (afterMoveOnGyro s angle power).d.moveChannel with
      | none => simp [HoldLoop.cancelled]
      | some c => simp [HoldLoop.cancelled, hwf1.stored_open c hm]
    unfold activeLoops
    rw [hloops, List.filter_append]
    congr 1
    · exact List.filter_congr (fun t _ => by rw [cancelled_congr hcl])
    · simp [List.filter, hnew]

/-- C7, witness: the freshly configured Drive `demo`, where one `MOVE_ON_GYRO` brings
the number of active loops from zero to one. -/
theorem C7_active_loops_share_handle_witness :
    Reachable testPlatform idleEnv demo ∧
    (∀ t ∈ activeLoops demo, t.chan = demo.d.moveChannel ∧ demo.d.moveChannel ≠ none) ∧
    ∀ (fuel : Nat) (angle power : Int), ∃ s1,
      MoveSteering testPlatform idleEnv (fuel + 1) demo MOVE_ON_GYRO
        [.int16 angle, .int power] = some (.ok, s1) ∧
      activeLoops s1 = activeLoops demo ++ [⟨s1.d.moveChannel, angle, toInt16 power⟩] :=
  ⟨Reachable.fresh _ _ _ _,
    C7_active_loops_share_handle testPlatform idleEnv demo (Reachable.fresh _ _ _ _)⟩

/-- C7, counterexample to the claim as stated: two `MOVE_ON_GYRO` calls in a row on a
freshly configured Drive end in a reachable state with two active heading-hold loops,
both on channel 0. -/
theorem C7_counterexample :
    (callSeq testPlatform idleEnv 1 demo twoGyroCalls).map activeLoops =
      some [⟨some 0, 0, 50⟩, ⟨some 0, 0, 50⟩] ∧
    ∀ s2, callSeq testPlatform idleEnv 1 demo twoGyroCalls = some s2 →
      Reachable testPlatform idleEnv s2 :=
  ⟨by decide, fun s2 h =>
    callSeq_reachable testPlatform idleEnv 1 twoGyroCalls demo s2 (Reachable.fresh _ _ _ _) h⟩


theorem afterMoveOff_moveChannel (s : Sys) (b : Bool) :
    (afterMoveOff s b).d.moveChannel = none := by
  cases hm : s.d.moveChannel with
  | none => simp [afterMoveOff, hm, setBrakeMode_moveChannel]
  | some c => simp [afterMoveOff, hm]

theorem afterMoveOff_closed (s : Sys) (b : Bool) :
    (afterMoveOff s b).closed = s.d.moveChannel.toList ++ s.closed := by
  cases hm : s.d.moveChannel with
  | none => simp [afterMoveOff, hm, setBrakeMode_closed]
  | some c => simp [afterMoveOff, hm]

theorem afterMoveOff_log_of_none (s : Sys) (b : Bool) (hm : s.d.moveChannel = none) :
    (afterMoveOff s b).log = (setBrakeMode s b).log ++
      [.Println "Stopping motors!", .Stop s.d.leftMotor, .Stop s.d.rightMotor] := by
  simp [afterMoveOff, hm]

/-- C10: in every state reachable by a sequence of `MoveSteering` calls no channel has
been closed twice and the stored handle is never an already closed channel; `MOVE_OFF`
there does not panic, it closes exactly the stored channel (if one is stored) and clears
the handle in the same call; a `MOVE_OFF` issued right after it does not panic either,
closes nothing and takes the direct `Stop` branch. -/
theorem C10_cancel_once (pf : Platform) (env : Nat → String) (s : Sys)
    (hr : Reachable pf env s) :
    s.closed.Nodup ∧
    (∀ c, s.d.moveChannel = some c → c ∉ s.closed) ∧
    ∀ (fuel : Nat) (b b2 : Bool),
      MoveSteering pf env (fuel + 1) s MOVE_OFF [.bool b] = some (.ok, afterMoveOff s b) ∧
      (afterMoveOff s b).closed = s.d.moveChannel.toList ++ s.closed ∧
      (afterMoveOff s b).closed.Nodup ∧
      (afterMoveOff s b).d.moveChannel = none ∧
      MoveSteering pf env (fuel + 1) (afterMoveOff s b) MOVE_OFF [.bool b2] =
        some (.ok, afterMoveOff (afterMoveOff s b) b2) ∧
      (afterMoveOff (afterMoveOff s b) b2).closed = (afterMoveOff s b).closed ∧
      (afterMoveOff (afterMoveOff s b) b2).log =
        (setBrakeMode (afterMoveOff s b) b2).log ++
          [.Println "Stopping motors!", .Stop s.d.leftMotor, .Stop s.d.rightMotor] := by
  have hwf := hr.wf
  refine ⟨hwf.closed_nodup, hwf.stored_open, ?_⟩
  intro fuel b b2
  have h1 := MoveSteering_off pf env fuel s b hwf.stored_open
  have hr1 : Reachable pf env (afterMoveOff s b) := Reachable.call _ _ _ hr h1
  have hnone := afterMoveOff_moveChannel s b
  have h2 := MoveSteering_off pf env fuel (afterMoveOff s b) b2 hr1.wf.stored_open
  refine ⟨h1, afterMoveOff_closed s b, hr1.wf.closed_nodup, hnone, h2, ?_, ?_⟩
  · rw [afterMoveOff_closed (afterMoveOff s b) b2, hnone]
    rfl
  · have hl : (afterMoveOff s b).d.leftMotor = s.d.leftMotor := by
      cases hm : s.d.moveChannel <;> simp [afterMoveOff, hm, setBrakeMode_d]
    have hrm : (afterMoveOff s b).d.rightMotor = s.d.rightMotor := by
      cases hm : s.d.moveChannel <;> simp [afterMoveOff, hm, setBrakeMode_d]
    rw [afterMoveOff_log_of_none _ _ hnone, hl, hrm]

/-- C10, witness: the freshly configured Drive `demo`. -/
theorem C10_cancel_once_witness :
    Reachable testPlatform idleEnv demo ∧ demo.closed.Nodup ∧
    (∀ c, demo.d.moveChannel = some c → c ∉ demo.closed) :=
  ⟨Reachable.fresh _ _ _ _,
    (C10_cancel_once testPlatform idleEnv demo (Reachable.fresh _ _ _ _)).1,
    (C10_cancel_once testPlatform idleEnv demo (Reachable.fresh _ _ _ _)).2.1⟩

set_option maxRecDepth 10000 in
theorem holdNudgeOk_all : (List.range 201).all (fun i => holdNudgeOk ((i : Int) - 100)) = true := by
  decide!

/-- For a base power in [-100, 100] the `float32` product with `float32(1.1)`, converted
to `int16`, is `11 * p / 10` truncated toward zero. -/
theorem holdNudge (pf : Platform) (p : Int) (hlo : -100 ≤ p) (hhi : p ≤ 100) :
    floatToInt 16 pf.f32ToInt16 (GoFloat.mul binary32 (int16ToF32 p) f32_1_1) =
      Int.tdiv (11 * p) 10 := by
  have hall := holdNudgeOk_all
  rw [List.all_eq_true] at hall
  have hi : (p + 100).toNat ∈ List.range 201 := by
    rw [List.mem_range]; omega
  have hok := hall _ hi
  have hp : (((p + 100).toNat : Nat) : Int) - 100 = p := by omega
  rw [hp] at hok
  unfold holdNudgeOk at hok
  split at hok
  · rename_i k hk
    simp only [Bool.and_eq_true, beq_iff_eq, decide_eq_true_eq] at hok
    obtain ⟨h1, h2, h3⟩ := hok
    rw [hk]
    simp only [floatToInt]
    rw [if_pos ⟨h2, h3⟩]
    exact h1
  · cases hok

/-- C8 (as amended): one round of the heading-hold loop (channel not closed) with
sensor reading `h`, target heading `t` and base power `p` in [-100, 100] goes on looping
and issues exactly two motor calls, `Run` on the left motor and then `Run` on the right
motor, with powers: if `h < t`, left = 1.1 * p truncated toward zero to an integer and
right = p; if `h > t`, left = p and right = 1.1 * p truncated toward zero; if `h = t`,
left = right = p. -/
theorem C8_hold_iteration (pf : Platform) (d : Drive) (ch : Option Nat) (h t p : Int)
    (hlo : -100 ≤ p) (hhi : p ≤ 100) :
    (holdLoopStep pf d ⟨ch, t, p⟩ false h).1.filter Event.isMotorCall =
      [.Run d.leftMotor (nudgedPowers h t p).1, .Run d.rightMotor (nudgedPowers h t p).2] ∧
    (holdLoopStep pf d ⟨ch, t, p⟩ false h).2 = true := by
  have e : holdPowers pf t p h =
      if h < t then (Int.tdiv (11 * p) 10, p, "<")
      else if h > t then (p, Int.tdiv (11 * p) 10, ">")
      else (p, p, "=") := by
    unfold holdPowers
    rw [holdNudge pf p hlo hhi]
  unfold holdLoopStep nudgedPowers
  rw [e]
  by_cases h1 : h < t
  · simp only [if_pos h1]
    exact ⟨rfl, rfl⟩
  · by_cases h2 : h > t
    · simp only [if_neg h1, if_pos h2]
      exact ⟨rfl, rfl⟩
    · simp only [if_neg h1, if_neg h2]
      exact ⟨rfl, rfl⟩

/-- C8, witness: reading 3 below target 10 at base power 50 runs left at 55, right
at 50. -/
theorem C8_hold_iteration_witness :
    (-100 : Int) ≤ 50 ∧ (50 : Int) ≤ 100 ∧
    (holdLoopStep testPlatform demo.d ⟨some 0, 10, 50⟩ false 3).1.filter Event.isMotorCall =
      [.Run "B" 55, .Run "C" 50] :=
  ⟨by decide, by decide,
    ((C8_hold_iteration testPlatform demo.d (some 0) 3 10 50 (by decide) (by decide)).1).trans
      (by decide)⟩

set_option maxRecDepth 10000 in
/-- C8, counterexample to the claim as stated: with reading 0 below target 10 and base
power 5 the left motor is run at 5, not at 1.1 * 5 = 5.5. -/
theorem C8_counterexample :
    (holdLoopStep testPlatform demo.d ⟨some 0, 10, 5⟩ false 0).1.filter Event.isMotorCall =
      [.Run "B" 5, .Run "C" 5] ∧
    ((5 : ℚ) ≠ 11 / 10 * 5) := by
  refine ⟨by decide!, by norm_num⟩

/-- C20, the code on undefined values: for the six constants `String` returns the
constant's own name (pairwise distinct names), but for every other `MoveOp` value it
never returns, whatever the fuel: formatting the value with `%v` re-enters `String`
without end. -/
theorem C20_string_recursion :
    (∀ fuel, definedOps.map (MoveOp.String (fuel + 1)) = opNames.map some) ∧
    opNames.Nodup ∧
    ∀ (fuel : Nat) (op : MoveOp), op ∉ definedOps → MoveOp.String fuel op = none := by
  refine ⟨fun fuel => by simp [definedOps, opNames, MoveOp.String, MOVE_OFF, MOVE_ON,
    MOVE_ON_GYRO, MOVE_ON_SECONDS, MOVE_ON_DEGREES, MOVE_ON_ROTATIONS], by decide, ?_⟩
  intro fuel op hop
  simp only [definedOps, List.mem_cons, List.mem_singleton, not_or, List.not_mem_nil,
    or_false] at hop
  obtain ⟨h0, h1, h2, h3, h4, h5⟩ := hop
  induction fuel with
  | zero => rfl
  | succ n ih => simp [MoveOp.String, h0, h1, h2, h3, h4, h5, ih]

/-- Error returns and the Drive: a call that returns an error leaves the whole state as
it was, except `MOVE_ON_GYRO` with a wrong argument count, which has made and stored a
channel by then if none was stored. -/
theorem MoveSteering_err_state (pf : Platform) (env : Nat → String) (fuel : Nat)
    (s s1 : Sys) (op : MoveOp) (args : List GoVal) (msg : String)
    (h : MoveSteering pf env fuel s op args = some (.err msg, s1)) :
    s1 = s ∨ (op = MOVE_ON_GYRO ∧ args ≠ [] ∧ s.d.moveChannel = none ∧
      s1 = afterCountError s op) := by
  cases fuel with
  | zero => simp [MoveSteering] at h
  | succ n =>
    by_cases h0 : op = 0
    · subst h0
      simp [MoveSteering, MOVE_OFF] at h
      repeat' split at h
      all_goals first
        | (cases h; done)
        | (cases h; exact Or.inl rfl)
    by_cases h1 : op = 1
    · subst h1
      simp [MoveSteering, MOVE_OFF, MOVE_ON] at h
      repeat' split at h
      all_goals first
        | (cases h; done)
        | (cases h; exact Or.inl rfl)
    by_cases h2 : op = 2
    · subst h2
      simp [MoveSteering, MOVE_OFF, MOVE_ON, MOVE_ON_GYRO] at h
      repeat' split at h
      all_goals first
        | (cases h; done)
        | (cases h; exact Or.inl rfl)
        | (rename_i hne hlen hm
           cases h
           exact Or.inr ⟨rfl, hne, hm, by simp [afterCountError, MOVE_ON_GYRO, hm]⟩)
    by_cases h3 : op = 3
    · subst h3
      simp [MoveSteering, MOVE_OFF, MOVE_ON, MOVE_ON_GYRO, MOVE_ON_DEGREES, MOVE_ON_SECONDS,
        MOVE_ON_ROTATIONS] at h
      repeat' split at h
      all_goals first
        | (cases h; done)
        | (cases h; exact Or.inl rfl)
    by_cases h4 : op = 4
    · subst h4
      simp [MoveSteering, MOVE_OFF, MOVE_ON, MOVE_ON_GYRO, MOVE_ON_DEGREES, MOVE_ON_SECONDS,
        MOVE_ON_ROTATIONS] at h
      repeat' split at h
      all_goals first
        | (cases h; done)
        | (cases h; exact Or.inl rfl)
    by_cases h5 : op = 5
    · subst h5
      simp [MoveSteering, MOVE_OFF, MOVE_ON, MOVE_ON_GYRO, MOVE_ON_DEGREES, MOVE_ON_SECONDS,
        MOVE_ON_ROTATIONS] at h
      repeat' split at h
      all_goals first
        | (cases h; done)
        | (cases h; exact Or.inl rfl)
    · simp [MoveSteering, MOVE_OFF, MOVE_ON, MOVE_ON_GYRO, MOVE_ON_DEGREES, MOVE_ON_SECONDS,
        MOVE_ON_ROTATIONS, h0, h1, h2, h3, h4, h5] at h
      repeat' split at h
      all_goals first
        | (cases h; done)
        | (cases h; exact Or.inl rfl)

/-- C19, the code at the failing input: `MoveSteering(MOVE_ON_GYRO, int16(90))` on the
freshly configured Drive `demo` returns the argument-count error, yet the Drive has
changed: `moveChannel` is now a channel.  A later `MOVE_OFF` therefore closes that channel
and sleeps instead of stopping the motors, as it does on the untouched Drive. -/
theorem C19_rejected_gyro_changes_drive :
    MoveSteering testPlatform idleEnv 1 demo MOVE_ON_GYRO [.int16 90] =
      some (.err "Expected 2 arguments, got 1", demoAfterRejectedGyro) ∧
    demo.d.moveChannel = none ∧ demoAfterRejectedGyro.d.moveChannel = some 0 ∧
    (MoveSteering testPlatform idleEnv 1 demoAfterRejectedGyro MOVE_OFF [.bool false]).map
        (fun r => r.2.log.drop demo.log.length) =
      some [.DisableBrakeMode "B", .DisableBrakeMode "C", .Sleep 250] ∧
    (MoveSteering testPlatform idleEnv 1 demo MOVE_OFF [.bool false]).map
        (fun r => r.2.log.drop demo.log.length) =
      some [.DisableBrakeMode "B", .DisableBrakeMode "C", .Println "Stopping motors!",
        .Stop "B", .Stop "C"] := by
  decide

/-- The wait loop with `k` busy rounds followed by a round that finds a motor idle. -/
theorem waitLoop_rounds (env : Nat → String) (k extra : Nat) :
    ∀ s : Sys,
    (∀ j, j < k → env (s.polls + 2 * j) ≠ "" ∧ env (s.polls + 2 * j + 1) ≠ "") →
    (env (s.polls + 2 * k) = "" ∨ env (s.polls + 2 * k + 1) = "") →
    waitLoop env (k + 1 + extra) s =
      some { s with
        polls := s.polls + 2 * k + (if env (s.polls + 2 * k) = "" then 1 else 2)
        log := s.log ++ (busyRounds s.d k ++
          exitRound s.d (decide (env (s.polls + 2 * k) = ""))) } := by
  induction k with
  | zero =>
    intro s _ hidle
    have e : 0 + 1 + extra = extra + 1 := by omega
    rw [e, waitLoop]
    by_cases h0 : env s.polls = ""
    · simp [h0, Sys.emit, busyRounds, exitRound]
    · have h1 : env (s.polls + 1) = "" := by
        rcases hidle with h | h
        · exact absurd (by simpa using h) h0
        · simpa using h
      simp [h0, h1, Sys.emit, busyRounds, exitRound]
  | succ k ih =>
    intro s hbusy hidle
    have e : k + 1 + 1 + extra = (k + 1 + extra) + 1 := by omega
    rw [e, waitLoop]
    have hb0 := hbusy 0 (Nat.succ_pos k)
    simp only [Nat.mul_zero, Nat.add_zero] at hb0
    have h0 : env s.polls ≠ "" := hb0.1
    have h1 : env (s.polls + 1) ≠ "" := hb0.2
    simp only [Sys.emit, beq_iff_eq, h0, h1, if_false]
    rw [ih]
    · have e1 : s.polls + 1 + 1 + 2 * k = s.polls + 2 * (k + 1) := by omega
      simp only [e1, busyRounds, List.append_assoc, List.cons_append, List.nil_append]
    · intro j hj
      have := hbusy (j + 1) (Nat.succ_lt_succ hj)
      have e1 : s.polls + 1 + 1 + 2 * j = s.polls + 2 * (j + 1) := by omega
      simp only [e1]
      exact this
    · have e1 : s.polls + 1 + 1 + 2 * k = s.polls + 2 * (k + 1) := by omega
      simp only [e1]
      exact hidle

theorem busyRounds_count (d : Drive) (k : Nat) (b : Bool) :
    (busyRounds d k ++ exitRound d b).count (Event.Sleep 250) = k := by
  induction k with
  | zero => cases b <;> simp [busyRounds, exitRound]
  | succ k ih =>
    simp only [busyRounds, List.append_assoc, List.cons_append, List.nil_append]
    simp only [List.append_assoc] at ih
    simp [List.count_cons, ih]

/-- Where the wait loop exits: at the first answer that is idle, whichever motor gave
it; the last call logged is the `ReadState` that got this answer. -/
theorem waitLoop_exit (env : Nat → String) (fuel : Nat) :
    ∀ s s1 : Sys, waitLoop env fuel s = some s1 →
    s.polls < s1.polls ∧ env (s1.polls - 1) = "" ∧
    (∀ i, s.polls ≤ i → i + 1 < s1.polls → env i ≠ "") ∧
    s1.log.getLast? = some (.ReadState
      (if (s1.polls - s.polls) % 2 = 1 then s.d.leftMotor else s.d.rightMotor)) := by
  induction fuel with
  | zero =>
    intro s s1 h
    simp [waitLoop] at h
  | succ n ih =>
    intro s s1 h
    rw [waitLoop] at h
    by_cases h0 : env s.polls = ""
    · simp only [beq_iff_eq, h0, if_true, Option.some.injEq] at h
      subst h
      refine ⟨by simp, by simpa using h0, ?_, by simp [Sys.emit]⟩
      intro i hi hlt
      simp at hlt
      omega
    · by_cases h1 : env (s.polls + 1) = ""
      · simp only [beq_iff_eq, h0, h1, if_true, if_false, Option.some.injEq] at h
        subst h
        have hpar : (s.polls + 1 + 1 - s.polls) % 2 ≠ 1 := by omega
        refine ⟨by simp only []; omega, by simpa using h1, ?_, by simp [Sys.emit, hpar]⟩
        intro i hi hlt
        simp at hlt
        have : i = s.polls := by omega
        subst this
        exact h0
      · simp only [beq_iff_eq, h0, h1, if_false] at h
        obtain ⟨hlt, hidle, hbusy, hlast⟩ := ih _ _ h
        simp only [Sys.emit] at hlt hbusy hlast
        refine ⟨by omega, hidle, ?_, ?_⟩
        · intro i hi hi2
          by_cases e0 : i = s.polls
          · subst e0; exact h0
          · by_cases e1 : i = s.polls + 1
            · subst e1; exact h1
            · exact hbusy i (by omega) hi2
        · rw [hlast]
          have hpar : (s1.polls - (s.polls + 1 + 1)) % 2 = (s1.polls - s.polls) % 2 := by
            omega
          rw [hpar]

/-- The wait loop ends when some later `ReadState` answers idle and the fuel covers the
rounds up to that answer. -/
theorem waitLoop_terminates (env : Nat → String) (fuel : Nat) :
    ∀ (n : Nat) (s : Sys), env (s.polls + n) = "" → n < fuel →
    ∃ s1, waitLoop env fuel s = some s1 := by
  induction fuel with
  | zero =>
    intro n s _ hlt
    omega
  | succ f ih =>
    intro n s hidle hlt
    rw [waitLoop]
    by_cases h0 : env s.polls = ""
    · simp only [beq_iff_eq, h0, if_true]
      exact ⟨_, rfl⟩
    · by_cases h1 : env (s.polls + 1) = ""
      · simp only [beq_iff_eq, h0, h1, if_true, if_false]
        exact ⟨_, rfl⟩
      · simp only [beq_iff_eq, h0, h1, if_false]
        have hn0 : n ≠ 0 := by
          intro e; subst e; exact h0 (by simpa using hidle)
        have hn1 : n ≠ 1 := by
          intro e; subst e; exact h1 hidle
        apply ih (n - 2)
        · simp only [Sys.emit]
          have e : s.polls + 1 + 1 + (n - 2) = s.polls + n := by omega
          rw [e]; exact hidle
        · omega

/-- What the wait loop logs: nothing but `ReadState` on the two motors and 250 ms
sleeps; it leaves the Drive alone. -/
theorem waitLoop_log (env : Nat → String) (fuel : Nat) :
    ∀ s s1 : Sys, waitLoop env fuel s = some s1 →
    s1.d = s.d ∧ ∃ polls, s1.log = s.log ++ polls ∧ ∀ e ∈ polls, Event.isWaitEvent s.d e := by
  induction fuel with
  | zero =>
    intro s s1 h
    simp [waitLoop] at h
  | succ n ih =>
    intro s s1 h
    rw [waitLoop] at h
    by_cases h0 : env s.polls = ""
    · simp only [beq_iff_eq, h0, if_true, Option.some.injEq] at h
      subst h
      exact ⟨rfl, [.ReadState s.d.leftMotor], rfl, by simp [Event.isWaitEvent]⟩
    · by_cases h1 : env (s.polls + 1) = ""
      · simp only [beq_iff_eq, h0, h1, if_true, if_false, Option.some.injEq] at h
        subst h
        exact ⟨rfl, [.ReadState s.d.leftMotor, .ReadState s.d.rightMotor],
          by simp [Sys.emit], by simp [Event.isWaitEvent]⟩
      · simp only [beq_iff_eq, h0, h1, if_false] at h
        obtain ⟨hd, polls, hlog, hall⟩ := ih _ _ h
        simp only [Sys.emit] at hd hlog hall
        refine ⟨hd, [.ReadState s.d.leftMotor, .ReadState s.d.rightMotor, .Sleep 250] ++ polls,
          by simp [hlog], ?_⟩
        intro e he
        simp only [List.cons_append, List.nil_append, List.mem_cons] at he
        rcases he with he | he | he | he
        · exact Or.inl he
        · exact Or.inr (Or.inl he)
        · exact Or.inr (Or.inr he)
        · exact hall e he

theorem setBrakeMode_log (s : Sys) (b : Bool) :
    (setBrakeMode s b).log =
      s.log ++ (if s.d.brakeModeValid = false ∨ b ≠ s.d.brakeMode
                then brakeWrites s.d b else []) := by
  obtain ⟨⟨l, r, v, bm, m, g⟩, ch, cl, lp, po, lg⟩ := s
  cases v <;> cases bm <;> cases b <;> simp [setBrakeMode, Sys.emit, brakeWrites]

theorem setBrakeMode_polls (s : Sys) (b : Bool) : (setBrakeMode s b).polls = s.polls := by
  obtain ⟨⟨l, r, v, bm, m, g⟩, ch, cl, lp, po, lg⟩ := s
  cases v <;> cases bm <;> cases b <;> simp [setBrakeMode, Sys.emit]

/-- The `case MOVE_ON_DEGREES` with well-typed arguments: brake mode, two `RunToRelPos`,
then the wait loop. -/
theorem MoveSteering_degrees (pf : Platform) (env : Nat → String) (fuel : Nat) (s : Sys)
    (steering : GoFloat) (power degrees : Int) (brake : Bool) :
    MoveSteering pf env (fuel + 1) s MOVE_ON_DEGREES
        [.float64 steering, .int power, .int degrees, .bool brake] =
      (waitLoop env fuel { setBrakeMode s brake with
          log := s.log ++ degreesCalls pf s steering power degrees brake }).map
        (fun s3 => (Outcome.ok, s3)) := by
  have hd := setBrakeMode_d s brake
  have hl := setBrakeMode_log s brake
  simp only [MoveSteering, MOVE_OFF, MOVE_ON, MOVE_ON_GYRO, MOVE_ON_DEGREES, GoVal.asFloat64,
    GoVal.asInt, GoVal.asBool, Sys.emit, degreesCalls, hd, hl, List.append_assoc]
  simp [hd, hl]
  cases waitLoop env fuel _ <;> rfl

/-- The `case MOVE_ON_SECONDS` with well-typed arguments: brake mode, two `RunTimed`,
then the wait loop. -/
theorem MoveSteering_seconds (pf : Platform) (env : Nat → String) (fuel : Nat) (s : Sys)
    (steering : GoFloat) (power : Int) (seconds : GoFloat) (brake : Bool) :
    MoveSteering pf env (fuel + 1) s MOVE_ON_SECONDS
        [.float64 steering, .int power, .float64 seconds, .bool brake] =
      (waitLoop env fuel { setBrakeMode s brake with
          log := s.log ++ secondsCalls pf s steering power seconds brake }).map
        (fun s3 => (Outcome.ok, s3)) := by
  have hd := setBrakeMode_d s brake
  have hl := setBrakeMode_log s brake
  simp only [MoveSteering, MOVE_OFF, MOVE_ON, MOVE_ON_GYRO, MOVE_ON_DEGREES, MOVE_ON_SECONDS,
    MOVE_ON_ROTATIONS, GoVal.asFloat64,
    GoVal.asInt, GoVal.asBool, Sys.emit, secondsCalls, hd, hl, List.append_assoc]
  simp [hd, hl]
  cases waitLoop env fuel _ <;> rfl

theorem isWaitEvent_congr {d d1 : Drive} (hl : d1.leftMotor = d.leftMotor)
    (hr : d1.rightMotor = d.rightMotor) (e : Event) :
    Event.isWaitEvent d1 e ↔ Event.isWaitEvent d e := by
  simp [Event.isWaitEvent, hl, hr]

/-- C17 (as amended): the completion wait returns as soon as EITHER actuator reports the
idle state: when the loop exits, the last `ReadState` answer it consumed is idle and no
earlier answer was; that last answer is the left motor's when an odd number of answers was
consumed, and otherwise the right motor's, the left motor having answered non-idle in
that round. -/
theorem C17_wait_exits_on_first_idle (env : Nat → String) (fuel : Nat) (s s1 : Sys)
    (h : waitLoop env fuel s = some s1) :
    s.polls < s1.polls ∧ env (s1.polls - 1) = "" ∧
    (∀ i, s.polls ≤ i → i + 1 < s1.polls → env i ≠ "") ∧
    s1.log.getLast? = some (.ReadState
      (if (s1.polls - s.polls) % 2 = 1 then s.d.leftMotor else s.d.rightMotor)) :=
  waitLoop_exit env fuel s s1 h

/-- C17, witness: the left motor answers "running", the right motor idle. -/
theorem C17_wait_exits_on_first_idle_witness :
    waitLoop rightIdleEnv 1 demo = some demoAfterWait ∧
    demo.polls < demoAfterWait.polls ∧ rightIdleEnv (demoAfterWait.polls - 1) = "" ∧
    (∀ i, demo.polls ≤ i → i + 1 < demoAfterWait.polls → rightIdleEnv i ≠ "") ∧
    demoAfterWait.log.getLast? = some (.ReadState
      (if (demoAfterWait.polls - demo.polls) % 2 = 1 then demo.d.leftMotor
       else demo.d.rightMotor)) :=
  ⟨by decide, C17_wait_exits_on_first_idle rightIdleEnv 1 demo demoAfterWait (by decide)⟩

/-- C17, counterexample to the claim as stated: with the left motor answering "running"
and the right motor idle, the wait loop exits on its first round, although the left
motor is not idle at that poll. -/
theorem C17_counterexample :
    waitLoop rightIdleEnv 1 demo = some demoAfterWait ∧
    demoAfterWait.log.drop demo.log.length = [.ReadState "B", .ReadState "C"] ∧
    rightIdleEnv 0 = "running" ∧ rightIdleEnv 0 ≠ "" ∧ rightIdleEnv 1 = "" := by
  decide

/-- C18: if the first `k` rounds of the completion wait find both motors non-idle and
round `k + 1` finds a motor idle, the loop returns (fuel for `k + 1` rounds is enough)
after exactly `k + 1` rounds, having slept 250 ms exactly `k` times: once after each
round that found no idle motor, and not after the last one. -/
theorem C18_wait_rounds (env : Nat → String) (k extra : Nat) (s : Sys)
    (hbusy : ∀ j, j < k → env (s.polls + 2 * j) ≠ "" ∧ env (s.polls + 2 * j + 1) ≠ "")
    (hidle : env (s.polls + 2 * k) = "" ∨ env (s.polls + 2 * k + 1) = "") :
    waitLoop env (k + 1 + extra) s =
      some { s with
        polls := s.polls + 2 * k + (if env (s.polls + 2 * k) = "" then 1 else 2)
        log := s.log ++ (busyRounds s.d k ++
          exitRound s.d (decide (env (s.polls + 2 * k) = ""))) } ∧
    (busyRounds s.d k ++ exitRound s.d (decide (env (s.polls + 2 * k) = ""))).count
      (Event.Sleep 250) = k :=
  ⟨waitLoop_rounds env k extra s hbusy hidle, busyRounds_count s.d k _⟩

/-- C18, witness: motors that report non-idle for 3 rounds and then idle; the loop
returns after 3 sleeps. -/
theorem C18_wait_rounds_witness :
    (∀ j, j < 3 → idleAfterThree (demo.polls + 2 * j) ≠ "" ∧
      idleAfterThree (demo.polls + 2 * j + 1) ≠ "") ∧
    (idleAfterThree (demo.polls + 2 * 3) = "" ∨ idleAfterThree (demo.polls + 2 * 3 + 1) = "") ∧
    (waitLoop idleAfterThree 4 demo).map (fun s1 => s1.log.drop demo.log.length) =
      some [.ReadState "B", .ReadState "C", .Sleep 250, .ReadState "B", .ReadState "C",
        .Sleep 250, .ReadState "B", .ReadState "C", .Sleep 250, .ReadState "B"] ∧
    (busyRounds demo.d 3 ++ exitRound demo.d true).count (Event.Sleep 250) = 3 :=
  ⟨by decide, by decide,
    (congrArg (Option.map (fun s1 => s1.log.drop demo.log.length))
      (C18_wait_rounds idleAfterThree 3 0 demo (by decide) (by decide)).1).trans (by decide),
    by decide⟩

/-- Converting to `int32` forgets a wrap-around at 32 bits or more. -/
theorem toInt32_wrapSigned (w : Nat) (x : Int) (hw : 32 ≤ w) :
    toInt32 (wrapSigned w x) = toInt32 x := by
  unfold toInt32 wrapSigned
  have hdvd : ((2 : Int) ^ 32) ∣ 2 ^ w := pow_dvd_pow 2 hw
  have h1 : ((x + 2 ^ (w - 1)) % 2 ^ w) % 2 ^ 32 = (x + 2 ^ (w - 1)) % 2 ^ 32 :=
    Int.emod_emod_of_dvd _ hdvd
  have h2 : ((x + 2 ^ (w - 1)) % 2 ^ w - 2 ^ (w - 1) + 2 ^ (32 - 1)) % 2 ^ 32 =
      (x + 2 ^ (32 - 1)) % 2 ^ 32 := by
    have e1 : (x + 2 ^ (w - 1)) % 2 ^ w - 2 ^ (w - 1) + 2 ^ (32 - 1) =
        (x + 2 ^ (w - 1)) % 2 ^ w + (2 ^ (32 - 1) - 2 ^ (w - 1)) := by ring
    have e2 : x + 2 ^ (32 - 1) = (x + 2 ^ (w - 1)) + (2 ^ (32 - 1) - 2 ^ (w - 1)) := by ring
    rw [e1, e2, Int.add_emod, h1, ← Int.add_emod]
  rw [h2]

/-- The `case MOVE_ON_ROTATIONS` with well-typed arguments is the recursive call. -/
theorem MoveSteering_rotations (pf : Platform) (env : Nat → String) (fuel : Nat) (s : Sys)
    (steering : GoFloat) (power rotations : Int) (brake : Bool) :
    MoveSteering pf env (fuel + 1) s MOVE_ON_ROTATIONS
        [.float64 steering, .int power, .int rotations, .bool brake] =
      MoveSteering pf env fuel s MOVE_ON_DEGREES
        [.float64 steering, .int power, .int (wrapSigned pf.intBits (rotations * 360)),
          .bool brake] := by
  cases fuel with
  | zero => simp [MoveSteering, MOVE_OFF, MOVE_ON, MOVE_ON_GYRO, MOVE_ON_DEGREES,
      MOVE_ON_ROTATIONS, GoVal.asInt]
  | succ f =>
    have h := MoveSteering_degrees pf env f s steering power
      (wrapSigned pf.intBits (rotations * 360)) brake
    rw [MoveSteering]
    simp only [MOVE_OFF, MOVE_ON, MOVE_ON_GYRO, MOVE_ON_DEGREES, MOVE_ON_ROTATIONS,
      GoVal.asInt] at h ⊢
    simp
    rw [h]
    cases waitLoop env f _ <;> rfl

theorem degreesCalls_toInt32 (pf : Platform) (s : Sys) (steering : GoFloat)
    (power d1 d2 : Int) (brake : Bool) (h : toInt32 d1 = toInt32 d2) :
    degreesCalls pf s steering power d1 brake = degreesCalls pf s steering power d2 brake := by
  simp [degreesCalls, h]

set_option maxRecDepth 10000 in
/-- The example of C15 run on `demo` with idle motors: both calls log the same calls. -/
theorem rotations_example_run :
    (MoveSteering testPlatform idleEnv 3 demo MOVE_ON_ROTATIONS rotationsExample).map
        (fun r => (r.1, r.2.log.drop demo.log.length)) =
      some (.ok, [.DisableBrakeMode "B", .DisableBrakeMode "C", .RunToRelPos "B" 50 720,
        .RunToRelPos "C" 40 720, .ReadState "B"]) ∧
    (MoveSteering testPlatform idleEnv 2 demo MOVE_ON_DEGREES degreesExample).map
        (fun r => (r.1, r.2.log.drop demo.log.length)) =
      some (.ok, [.DisableBrakeMode "B", .DisableBrakeMode "C", .RunToRelPos "B" 50 720,
        .RunToRelPos "C" 40 720, .ReadState "B"]) := by
  decide!


/-- C15: with well-typed arguments, `MOVE_ON_ROTATIONS` with `rotations` does what
`MOVE_ON_DEGREES` with `rotations * 360` does: the same calls, the same final state and
the same result under the same `ReadState` answers (the recursive call costs one unit of
fuel).  The product is Go's `int` product; where `int` has 32 bits or more, its
wrap-around makes no difference.  `OnRotations(10.0, 50, 2, false)` matches
`OnDegrees(10.0, 50, 720, false)`. -/
theorem C15_rotations_as_degrees (pf : Platform) (env : Nat → String) (s : Sys)
    (steering : GoFloat) (power rotations : Int) (brake : Bool) :
    (∀ fuel, MoveSteering pf env (fuel + 1) s MOVE_ON_ROTATIONS
        [.float64 steering, .int power, .int rotations, .bool brake] =
      MoveSteering pf env fuel s MOVE_ON_DEGREES
        [.float64 steering, .int power, .int (wrapSigned pf.intBits (rotations * 360)),
          .bool brake]) ∧
    (32 ≤ pf.intBits → ∀ fuel, MoveSteering pf env (fuel + 1) s MOVE_ON_ROTATIONS
        [.float64 steering, .int power, .int rotations, .bool brake] =
      MoveSteering pf env fuel s MOVE_ON_DEGREES
        [.float64 steering, .int power, .int (rotations * 360), .bool brake]) ∧
    (∀ fuel, MoveSteering testPlatform env (fuel + 1) s MOVE_ON_ROTATIONS rotationsExample =
      MoveSteering testPlatform env fuel s MOVE_ON_DEGREES degreesExample) ∧
    (MoveSteering testPlatform idleEnv 3 demo MOVE_ON_ROTATIONS rotationsExample).map
        (fun r => (r.1, r.2.log.drop demo.log.length)) =
      some (.ok, [.DisableBrakeMode "B", .DisableBrakeMode "C", .RunToRelPos "B" 50 720,
        .RunToRelPos "C" 40 720, .ReadState "B"]) := by
  refine ⟨fun fuel => MoveSteering_rotations pf env fuel s steering power rotations brake,
    ?_, ?_, rotations_example_run.1⟩
  · intro hw fuel
    rw [MoveSteering_rotations]
    cases fuel with
    | zero => simp [MoveSteering]
    | succ f =>
      rw [MoveSteering_degrees, MoveSteering_degrees,
        degreesCalls_toInt32 pf s steering power _ _ brake
          (toInt32_wrapSigned pf.intBits (rotations * 360) hw)]
  · intro fuel
    exact MoveSteering_rotations testPlatform env fuel s (GoFloat.ofInt 10) 50 2 false

theorem log2Fuel_le (fuel : Nat) : ∀ n, 1 ≤ n → 2 ^ log2Fuel fuel n ≤ n := by
  induction fuel with
  | zero =>
    intro n hn
    simpa [log2Fuel] using hn
  | succ f ih =>
    intro n hn
    rw [log2Fuel]
    by_cases h2 : n < 2
    · simpa [h2] using hn
    · by_cases h64 : n < 2 ^ 64
      · rw [if_neg h2, if_pos h64]
        have hpos : 1 ≤ n / 2 := by omega
        have := ih (n / 2) hpos
        rw [pow_succ]
        omega
      · rw [if_neg h2, if_neg h64]
        have hge : 2 ^ 64 ≤ n := Nat.le_of_not_lt h64
        have hpos : 1 ≤ n / 2 ^ 64 := (Nat.one_le_div_iff (by positivity)).mpr hge
        have h1 := ih (n / 2 ^ 64) hpos
        have h3 : n / 2 ^ 64 * 2 ^ 64 ≤ n := Nat.div_mul_le_self n (2 ^ 64)
        calc 2 ^ (log2Fuel f (n / 2 ^ 64) + 64)
            = 2 ^ log2Fuel f (n / 2 ^ 64) * 2 ^ 64 := by rw [pow_add]
          _ ≤ n / 2 ^ 64 * 2 ^ 64 := Nat.mul_le_mul_right _ h1
          _ ≤ n := h3

theorem log2Fuel_lt (fuel : Nat) : ∀ n, n ≤ fuel → n < 2 ^ (log2Fuel fuel n + 1) := by
  induction fuel with
  | zero =>
    intro n hn
    have : n = 0 := by omega
    subst this
    simp [log2Fuel]
  | succ f ih =>
    intro n hn
    rw [log2Fuel]
    by_cases h2 : n < 2
    · rw [if_pos h2]
      simpa using h2
    · by_cases h64 : n < 2 ^ 64
      · rw [if_neg h2, if_pos h64]
        have hle : n / 2 ≤ f := by omega
        have := ih (n / 2) hle
        rw [pow_succ]
        omega
      · rw [if_neg h2, if_neg h64]
        have hge : 2 ^ 64 ≤ n := Nat.le_of_not_lt h64
        have hle : n / 2 ^ 64 ≤ f := by
          have h1 : n / 2 ^ 64 ≤ n / 2 := Nat.div_le_div_left (by norm_num) (by norm_num)
          omega
        have h1 := ih (n / 2 ^ 64) hle
        have h3 : n < (n / 2 ^ 64 + 1) * 2 ^ 64 := by
          have := Nat.lt_div_mul_add (a := n) (b := 2 ^ 64) (by positivity)
          linarith [this]
        calc n < (n / 2 ^ 64 + 1) * 2 ^ 64 := h3
          _ ≤ 2 ^ (log2Fuel f (n / 2 ^ 64) + 1) * 2 ^ 64 := Nat.mul_le_mul_right _ h1
          _ = 2 ^ (log2Fuel f (n / 2 ^ 64) + 64 + 1) := by
            rw [← pow_add]

theorem floorLog2_le (n : Nat) (hn : 1 ≤ n) : 2 ^ floorLog2 n ≤ n := log2Fuel_le n n hn

theorem floorLog2_lt (n : Nat) : n < 2 ^ (floorLog2 n + 1) := log2Fuel_lt n n (Nat.le_refl n)

/-- An upper bound on `floorLog2Ratio`: if `a < 2 ^ t * d` then the exponent is below
`t`. -/
theorem floorLog2Ratio_lt (a d t : Nat) (ha : 1 ≤ a) (h : a < 2 ^ t * d)
    (ht : 1 ≤ t) : floorLog2Ratio a d < t := by
  unfold floorLog2Ratio
  simp only []
  by_cases hc : d * 2 ^ (floorLog2 a - floorLog2 d) ≤ a
  · rw [if_pos hc]
    have h1 : d * 2 ^ (floorLog2 a - floorLog2 d) < d * 2 ^ t := by
      calc d * 2 ^ (floorLog2 a - floorLog2 d) ≤ a := hc
        _ < 2 ^ t * d := h
        _ = d * 2 ^ t := Nat.mul_comm _ _
    have h2 : 2 ^ (floorLog2 a - floorLog2 d) < 2 ^ t := Nat.lt_of_mul_lt_mul_left h1
    exact (Nat.pow_lt_pow_iff_right (by norm_num)).mp h2
  · rw [if_neg hc]
    have h1 : 2 ^ floorLog2 a ≤ a := floorLog2_le a ha
    have h2 : d < 2 ^ (floorLog2 d + 1) := floorLog2_lt d
    have h3 : 2 ^ floorLog2 a < 2 ^ (t + (floorLog2 d + 1)) := by
      calc 2 ^ floorLog2 a ≤ a := h1
        _ < 2 ^ t * d := h
        _ < 2 ^ t * 2 ^ (floorLog2 d + 1) := Nat.mul_lt_mul_of_pos_left h2 (by positivity)
        _ = 2 ^ (t + (floorLog2 d + 1)) := (pow_add 2 t (floorLog2 d + 1)).symm
    have h4 : floorLog2 a < t + (floorLog2 d + 1) :=
      (Nat.pow_lt_pow_iff_right (by norm_num)).mp h3
    omega

theorem roundHalfEven_exact (q D : Nat) (hD : 0 < D) : roundHalfEven (q * D) D = q := by
  unfold roundHalfEven
  simp only []
  rw [Nat.mul_mod_left, Nat.mul_div_cancel _ hD]
  simp [hD]

/-- Rounding is exact on representable values: if `q = m * 2 ^ e0` with `m` of at most
`prec` bits, `e0` not below the smallest exponent and `q` below the overflow threshold,
then the exact quotient `(q * d) / d` rounds to `q`. -/
theorem round_exact (fmt : FloatFormat) (q : Int) (d : Nat) (m : Int) (e0 : Nat)
    (hd : 0 < d) (hq : q = m * 2 ^ e0) (hm : m.natAbs < 2 ^ fmt.prec)
    (he : fmt.qmin ≤ e0) (hprec : 1 ≤ fmt.prec) (hmax : q.natAbs < 2 ^ fmt.emax) :
    fmt.round (q * d) d = .fin q := by
  unfold FloatFormat.round
  simp only []
  by_cases hq0 : q = 0
  · subst hq0
    simp
  · have hqa : (q * (d : Int)).natAbs = q.natAbs * d := by
      rw [Int.natAbs_mul, Int.natAbs_ofNat]
    have hqpos : 1 ≤ q.natAbs := Nat.one_le_iff_ne_zero.mpr (Int.natAbs_ne_zero.mpr hq0)
    have hapos : 1 ≤ q.natAbs * d := Nat.one_le_iff_ne_zero.mpr
      (Nat.mul_ne_zero (by omega) (by omega))
    have hqm : q.natAbs = m.natAbs * 2 ^ e0 := by
      rw [hq, Int.natAbs_mul, Int.natAbs_pow]
      rfl
    have hlt : q.natAbs * d < 2 ^ (fmt.prec + e0) * d := by
      apply Nat.mul_lt_mul_of_pos_right _ hd
      rw [hqm, pow_add]
      exact Nat.mul_lt_mul_of_pos_right hm (by positivity)
    have hL : floorLog2Ratio (q.natAbs * d) d < fmt.prec + e0 :=
      floorLog2Ratio_lt _ _ _ hapos hlt (by omega)
    rw [hqa, if_neg (by omega)]
    generalize hE : max (floorLog2Ratio (q.natAbs * d) d - (fmt.prec - 1)) fmt.qmin = e
    have hele : e ≤ e0 := by
      rw [← hE]
      exact max_le (by omega) he
    have hsplit : q.natAbs * d = (m.natAbs * 2 ^ (e0 - e)) * (d * 2 ^ e) := by
      rw [hqm]
      have : 2 ^ e0 = 2 ^ (e0 - e) * 2 ^ e := by
        rw [← pow_add]
        congr 1
        omega
      rw [this]
      ring
    have hk : roundHalfEven (q.natAbs * d) (d * 2 ^ e) * 2 ^ e = q.natAbs := by
      rw [hsplit, roundHalfEven_exact _ _ (by positivity), hqm]
      have : 2 ^ e0 = 2 ^ (e0 - e) * 2 ^ e := by
        rw [← pow_add]
        congr 1
        omega
      rw [this]
      ring
    rw [hk, if_neg (by omega)]
    congr 1
    have hdpos : (0 : Int) < d := by exact_mod_cast hd
    by_cases hneg : q < 0
    · have : q * (d : Int) < 0 := Int.mul_neg_of_neg_of_pos hneg hdpos
      rw [if_pos this]
      omega
    · have : ¬ q * (d : Int) < 0 := by
        have hq1 : 0 ≤ q := by omega
        have := Int.mul_nonneg hq1 (le_of_lt hdpos)
        omega
      rw [if_neg this]
      omega

theorem binary32_bound (m : Int) (hm : m.natAbs < 2 ^ 24) :
    (m * 2 ^ unitExp).natAbs < 2 ^ binary32.emax := by
  have he : binary32.emax = unitExp + 128 := rfl
  have h2 : ((2 : Int) ^ unitExp).natAbs = 2 ^ unitExp := by
    have h : (2 : Int).natAbs = 2 := rfl
    rw [Int.natAbs_pow, h]
  rw [Int.natAbs_mul, h2, he, pow_add]
  have hu : 0 < (2 : Nat) ^ unitExp := by positivity
  generalize (2 : Nat) ^ unitExp = u at hu ⊢
  have h128 : m.natAbs < 2 ^ 128 := lt_trans hm (by norm_num)
  calc m.natAbs * u < 2 ^ 128 * u := Nat.mul_lt_mul_of_pos_right h128 hu
    _ = u * 2 ^ 128 := Nat.mul_comm _ _

/-- Rounding to `float32` is exact on integers of at most 24 bits, whatever the positive
divisor the exact value is given with. -/
theorem round32_int (m : Int) (d : Nat) (hd : 0 < d) (hm : m.natAbs < 2 ^ 24) :
    binary32.round (m * 2 ^ unitExp * d) d = .fin (m * 2 ^ unitExp) := by
  have hq : m * 2 ^ unitExp = m * 2 ^ unitExp := rfl
  have hprec : m.natAbs < 2 ^ binary32.prec := hm
  have hqmin : binary32.qmin ≤ unitExp := Nat.sub_le _ _
  have h1 : 1 ≤ binary32.prec := by decide
  exact round_exact binary32 (m * 2 ^ unitExp) d m unitExp hd hq hprec hqmin h1
    (binary32_bound m hm)

theorem int16ToF32_exact (p : Int) (hp : p.natAbs < 2 ^ 24) :
    int16ToF32 p = .fin (p * 2 ^ unitExp) := by
  have h := round32_int p 1 Nat.one_pos hp
  simpa [int16ToF32] using h

/-- With the scale `100` the per-wheel power is the base power itself. -/
theorem wheelPower_scale100 (pf : Platform) (p : Int) (hlo : -32768 ≤ p) (hhi : p ≤ 32767)
    (steering : GoFloat) (hs : steeringPowerCurve steering = GoFloat.ofInt 100) :
    wheelPower pf p steering = p := by
  have hp : p.natAbs < 2 ^ 24 := by omega
  have hp100 : (p * 100).natAbs < 2 ^ 24 := by omega
  unfold wheelPower
  rw [hs, int16ToF32_exact p hp]
  have hmul : GoFloat.mul binary32 (.fin (p * 2 ^ unitExp)) (GoFloat.ofInt 100) =
      .fin (p * 100 * 2 ^ unitExp) := by
    have h := round32_int (p * 100) (2 ^ unitExp) (by positivity) hp100
    have e : p * 2 ^ unitExp * (100 * 2 ^ unitExp) =
        p * 100 * 2 ^ unitExp * (((2 : Nat) ^ unitExp : Nat) : Int) := by
      push_cast
      ring
    simp only [GoFloat.mul, GoFloat.ofInt]
    rw [e, h]
  have hdiv : GoFloat.divConst binary32 100 (.fin (p * 100 * 2 ^ unitExp)) =
      .fin (p * 2 ^ unitExp) := by
    have h := round32_int p 100 (by norm_num) hp
    have e : p * 100 * 2 ^ unitExp = p * 2 ^ unitExp * ((100 : Nat) : Int) := by
      push_cast
      ring
    simp only [GoFloat.divConst]
    rw [e, h]
  rw [hmul, hdiv]
  simp only [floatToInt]
  have ht : Int.tdiv (p * 2 ^ unitExp) (2 ^ unitExp) = p := by
    have hu : (2 : Int) ^ unitExp ≠ 0 := by positivity
    generalize (2 : Int) ^ unitExp = u at hu ⊢
    exact Int.mul_tdiv_cancel _ hu
  rw [ht, if_pos ⟨by norm_num; omega, by norm_num; omega⟩]

theorem convert32_zero : GoFloat.convert binary32 (GoFloat.ofInt 0) = .fin 0 := by
  simp [GoFloat.convert, GoFloat.ofInt, FloatFormat.round]

theorem curve_zero : steeringPowerCurve (.fin 0) = GoFloat.ofInt 100 := by
  simp [steeringPowerCurve, GoFloat.ltZero]

theorem toInt16_of_range (p : Int) (hlo : -32768 ≤ p) (hhi : p ≤ 32767) : toInt16 p = p := by
  unfold toInt16 wrapSigned
  norm_num
  omega

/-- The `case MOVE_ON` with well-typed arguments. -/
theorem MoveSteering_on (pf : Platform) (env : Nat → String) (fuel : Nat) (s : Sys)
    (steering : GoFloat) (power : Int) :
    MoveSteering pf env (fuel + 1) s MOVE_ON [.float64 steering, .int power] =
      some (.ok, { s with log := s.log ++
        [.Run s.d.leftMotor (wheelPower pf (toInt16 power) (GoFloat.convert binary32 steering)),
         .Run s.d.rightMotor
           (wheelPower pf (toInt16 power) (GoFloat.convert binary32 steering).neg)] }) := by
  simp [MoveSteering, MOVE_OFF, MOVE_ON, GoVal.asFloat64, GoVal.asInt, Sys.emit]

theorem ofInt_add32 (a b : Int) (h : (a + b).natAbs < 2 ^ 24) :
    GoFloat.add binary32 (GoFloat.ofInt a) (GoFloat.ofInt b) = GoFloat.ofInt (a + b) := by
  have h1 := round32_int (a + b) 1 Nat.one_pos h
  have e : a * 2 ^ unitExp + b * 2 ^ unitExp = (a + b) * 2 ^ unitExp * ((1 : Nat) : Int) := by
    push_cast
    ring
  simp only [GoFloat.add, GoFloat.ofInt]
  rw [e, h1]

/-- Doubling a `float32` value is exact (short of overflow). -/
theorem mul32_two (k : Int) (hk : isFloat32 k) (hmax : (2 * k).natAbs < 2 ^ binary32.emax) :
    GoFloat.mul binary32 (GoFloat.ofInt 2) (.fin k) = .fin (2 * k) := by
  obtain ⟨m, e0, hkm, hm, he0, _⟩ := hk
  have hq : 2 * k = m * 2 ^ (e0 + 1) := by
    rw [hkm, pow_succ]
    ring
  have hqmin : binary32.qmin ≤ e0 + 1 := Nat.le_succ_of_le he0
  have h := round_exact binary32 (2 * k) (2 ^ unitExp) m (e0 + 1) (by positivity) hq hm hqmin
    (by decide) hmax
  have e : 2 * 2 ^ unitExp * k = 2 * k * (((2 : Nat) ^ unitExp : Nat) : Int) := by
    push_cast
    ring
  simp only [GoFloat.mul, GoFloat.ofInt]
  rw [e, h]

/-- The scale for a negative `float32` percentage: `2*percent + 100` rounded once. -/
theorem curve_neg (k : Int) (hk : isFloat32 k) (hneg : k < 0)
    (hmax : (2 * k).natAbs < 2 ^ binary32.emax) :
    steeringPowerCurve (.fin k) = binary32.round (2 * k + 100 * 2 ^ unitExp) 1 := by
  have hlt : (GoFloat.fin k).ltZero = true := by simp [GoFloat.ltZero, hneg]
  unfold steeringPowerCurve
  rw [if_pos hlt, mul32_two k hk hmax]
  rfl

theorem isFloat32_ofInt (n : Int) (hn : n.natAbs < 2 ^ 24) : isFloat32 (n * 2 ^ unitExp) :=
  ⟨n, unitExp, rfl, hn, Nat.sub_le _ _, binary32_bound n hn⟩

/-- The scale on whole percentages. -/
theorem curve_int (n : Int) (hn : n.natAbs ≤ 2 ^ 22) :
    steeringPowerCurve (GoFloat.ofInt n) = GoFloat.ofInt (scaleInt n) := by
  have hn' : n.natAbs ≤ 4194304 := by simpa using hn
  by_cases hneg : n < 0
  · have hk : isFloat32 (n * 2 ^ unitExp) := isFloat32_ofInt n (by omega)
    have hu : (0 : Int) < 2 ^ unitExp := by positivity
    have hneg' : n * 2 ^ unitExp < 0 := Int.mul_neg_of_neg_of_pos hneg hu
    have h2 : 2 * (n * 2 ^ unitExp) = (2 * n) * 2 ^ unitExp := by ring
    have hmax : (2 * (n * 2 ^ unitExp)).natAbs < 2 ^ binary32.emax := by
      rw [h2]
      exact binary32_bound (2 * n) (by omega)
    have h := curve_neg (n * 2 ^ unitExp) hk hneg' hmax
    have h1 := round32_int (2 * n + 100) 1 Nat.one_pos (by omega)
    have e : 2 * (n * 2 ^ unitExp) + 100 * 2 ^ unitExp =
        (2 * n + 100) * 2 ^ unitExp * ((1 : Nat) : Int) := by
      push_cast
      ring
    rw [e, h1] at h
    simp only [GoFloat.ofInt, scaleInt, if_pos hneg]
    exact h
  · have hlt : (GoFloat.ofInt n).ltZero = false := by
      have hu : (0 : Int) < 2 ^ unitExp := by positivity
      have : ¬ n * 2 ^ unitExp < 0 := by
        have := Int.mul_nonneg (by omega : 0 ≤ n) (le_of_lt hu)
        omega
      simp [GoFloat.ltZero, GoFloat.ofInt, this]
    unfold steeringPowerCurve
    simp [hlt, scaleInt, hneg]

/-- The two scales of a turn by a whole percentage add up to `200 - 2*|n|`. -/
theorem curve_sum (n : Int) (hn : n.natAbs ≤ 2 ^ 22) :
    GoFloat.add binary32 (steeringPowerCurve (GoFloat.ofInt n))
        (steeringPowerCurve (GoFloat.ofInt (-n))) =
      GoFloat.ofInt (200 - 2 * |n|) := by
  have hn' : n.natAbs ≤ 4194304 := by simpa using hn
  have hneg : (-n).natAbs ≤ 2 ^ 22 := by simpa using hn
  rw [curve_int n hn, curve_int (-n) hneg]
  have hs : scaleInt n + scaleInt (-n) = 200 - 2 * |n| := by
    unfold scaleInt
    by_cases h : n < 0
    · have h' : ¬ (-n < 0) := by omega
      rw [if_pos h, if_neg h', abs_of_neg h]
      ring
    · by_cases h0 : n = 0
      · subst h0
        simp
      · have h' : -n < 0 := by omega
        rw [if_neg h, if_pos h', abs_of_nonneg (by omega)]
        ring
  rw [ofInt_add32, hs]
  rw [hs]
  have : |n| = (n.natAbs : Int) := Int.abs_eq_natAbs n
  omega

theorem roundHalfEven_ge (a D : Nat) : a / D ≤ roundHalfEven a D := by
  unfold roundHalfEven
  simp only []
  split_ifs <;> omega

theorem roundHalfEven_le_succ (a D : Nat) : roundHalfEven a D ≤ a / D + 1 := by
  unfold roundHalfEven
  simp only []
  split_ifs <;> omega

/-- Rounding `A * u / 100` to a multiple of `2 ^ e`, where `u = w * 2 ^ e` with
`w ≥ 200`, stays within the unit interval of the integer quotient `A / 100`. -/
theorem round_div100_bounds (A w e : Nat) (hw : 200 ≤ w) :
    A / 100 * (w * 2 ^ e) ≤ roundHalfEven (A * (w * 2 ^ e)) (100 * 2 ^ e) * 2 ^ e ∧
    roundHalfEven (A * (w * 2 ^ e)) (100 * 2 ^ e) * 2 ^ e < (A / 100 + 1) * (w * 2 ^ e) := by
  have hpos : 0 < 2 ^ e := by positivity
  have ha : A * (w * 2 ^ e) = (A * w) * 2 ^ e := by ring
  have hq0 : A * (w * 2 ^ e) / (100 * 2 ^ e) = A * w / 100 := by
    rw [ha, Nat.mul_div_mul_right _ _ hpos]
  have hge := roundHalfEven_ge (A * (w * 2 ^ e)) (100 * 2 ^ e)
  have hle := roundHalfEven_le_succ (A * (w * 2 ^ e)) (100 * 2 ^ e)
  rw [hq0] at hge hle
  generalize roundHalfEven (A * (w * 2 ^ e)) (100 * 2 ^ e) = r at hge hle ⊢
  have hA : A = 100 * (A / 100) + A % 100 := (Nat.div_add_mod A 100).symm
  have hf : A % 100 < 100 := Nat.mod_lt _ (by norm_num)
  generalize A / 100 = N at hA ⊢
  generalize A % 100 = f at hA hf
  have hP : A * w = 100 * (N * w) + f * w := by rw [hA]; ring
  have hF : f * w ≤ 99 * w := Nat.mul_le_mul_right w (by omega)
  have e1 : N * (w * 2 ^ e) = (N * w) * 2 ^ e := by ring
  have e2 : (N + 1) * (w * 2 ^ e) = (N * w + w) * 2 ^ e := by ring
  rw [e1, e2]
  generalize N * w = Q at hP ⊢
  generalize f * w = F at hP hF
  have h1 : Q ≤ A * w / 100 := by omega
  have h2 : A * w / 100 + 2 ≤ Q + w := by omega
  constructor
  · exact Nat.mul_le_mul_right _ (by omega)
  · exact Nat.mul_lt_mul_of_pos_right (by omega) hpos

/-- C11: `steeringPowerCurve(percent)` is 100 for every `percent` that is not below zero,
and for every negative `float32` percentage it is `2*percent + 100` (computed in
`float32`: the exact value rounded once; doubling is exact); on whole percentages
(as far as `2 ^ 22`, so on all of [-100, 100]) it is exactly `2*percent + 100`.  In
particular the scale is 100 at 0 and 0 at -50, and the two scales of a turn by `p` add up
to `200 - 2*|p|`, which is not constant in `p`. -/
theorem C11_steering_curve :
    (∀ percent : GoFloat, percent.ltZero = false →
      steeringPowerCurve percent = GoFloat.ofInt 100) ∧
    (∀ k : Int, isFloat32 k → k < 0 → (2 * k).natAbs < 2 ^ binary32.emax →
      steeringPowerCurve (.fin k) = binary32.round (2 * k + 100 * 2 ^ unitExp) 1) ∧
    (∀ n : Int, n.natAbs ≤ 2 ^ 22 →
      steeringPowerCurve (GoFloat.ofInt n) =
        GoFloat.ofInt (if n < 0 then 2 * n + 100 else 100)) ∧
    steeringPowerCurve (GoFloat.ofInt 0) = GoFloat.ofInt 100 ∧
    steeringPowerCurve (GoFloat.ofInt (-50)) = GoFloat.ofInt 0 ∧
    (∀ n : Int, n.natAbs ≤ 2 ^ 22 →
      GoFloat.add binary32 (steeringPowerCurve (GoFloat.ofInt n))
          (steeringPowerCurve (GoFloat.ofInt (-n))) = GoFloat.ofInt (200 - 2 * |n|)) ∧
    (200 - 2 * |(1 : Int)| ≠ 200 - 2 * |(2 : Int)|) := by
  refine ⟨?_, curve_neg, curve_int, ?_, ?_, curve_sum, by decide⟩
  · intro percent h
    simp [steeringPowerCurve, h]
  · exact curve_int 0 (by norm_num)
  · exact curve_int (-50) (by norm_num)

theorem roundHalfEven_le_of_le (a D M : Nat) (hD : 0 < D) (h : a ≤ M * D) :
    roundHalfEven a D ≤ M := by
  have hq : a / D ≤ M := Nat.div_le_of_le_mul (by rw [Nat.mul_comm]; exact h)
  by_cases hlt : a / D < M
  · have := roundHalfEven_le_succ a D
    omega
  · have heq : a / D = M := by omega
    have h1 : a / D * D ≤ a := Nat.div_mul_le_self a D
    rw [heq] at h1
    have ha : a = M * D := Nat.le_antisymm h h1
    rw [ha, roundHalfEven_exact M D hD]

/-- Rounding does not leave a symmetric range whose bound `B` is on the rounding grid,
and it keeps the sign. -/
theorem round_bound (fmt : FloatFormat) (n : Int) (d B : Nat) (hd : 0 < d)
    (hB : n.natAbs ≤ B * d)
    (hdiv : 2 ^ (max (floorLog2 B - (fmt.prec - 1)) fmt.qmin) ∣ B)
    (hmax : B < 2 ^ fmt.emax) :
    ∃ r : Int, fmt.round n d = .fin r ∧ r.natAbs ≤ B ∧ (0 ≤ n → 0 ≤ r) ∧ (n ≤ 0 → r ≤ 0) := by
  unfold FloatFormat.round
  simp only []
  by_cases h0 : n.natAbs = 0
  · rw [if_pos h0]
    exact ⟨0, rfl, by simp, fun _ => le_refl _, fun _ => le_refl _⟩
  · rw [if_neg h0]
    have hapos : 1 ≤ n.natAbs := Nat.one_le_iff_ne_zero.mpr h0
    have hlt : n.natAbs < 2 ^ (floorLog2 B + 1) * d :=
      lt_of_le_of_lt hB (Nat.mul_lt_mul_of_pos_right (floorLog2_lt B) hd)
    have hL : floorLog2Ratio n.natAbs d < floorLog2 B + 1 :=
      floorLog2Ratio_lt _ _ _ hapos hlt (by omega)
    generalize hE : max (floorLog2Ratio n.natAbs d - (fmt.prec - 1)) fmt.qmin = e
    have hele : e ≤ max (floorLog2 B - (fmt.prec - 1)) fmt.qmin := by
      rw [← hE]
      exact max_le_max (by omega) (le_refl _)
    have hdvd : 2 ^ e ∣ B := Dvd.dvd.trans (pow_dvd_pow 2 hele) hdiv
    obtain ⟨M, hM⟩ := hdvd
    have hpos : 0 < 2 ^ e := by positivity
    have hle : n.natAbs ≤ M * (d * 2 ^ e) := by
      calc n.natAbs ≤ B * d := hB
        _ = M * (d * 2 ^ e) := by rw [hM]; ring
    have hr := roundHalfEven_le_of_le n.natAbs (d * 2 ^ e) M (by positivity) hle
    have hk : roundHalfEven n.natAbs (d * 2 ^ e) * 2 ^ e ≤ B := by
      calc roundHalfEven n.natAbs (d * 2 ^ e) * 2 ^ e ≤ M * 2 ^ e :=
            Nat.mul_le_mul_right _ hr
        _ = B := by rw [hM]; ring
    generalize roundHalfEven n.natAbs (d * 2 ^ e) * 2 ^ e = k at hk
    rw [if_neg (by omega)]
    by_cases hneg : n < 0
    · rw [if_pos hneg]
      exact ⟨-(k : Int), rfl, by omega, fun h => by omega, fun _ => by omega⟩
    · rw [if_neg hneg]
      exact ⟨(k : Int), rfl, by omega, fun _ => by omega, fun h => by omega⟩

/-- Rounding does not cross a grid point `B` from above: if the exact magnitude is at
least `B` (and at most `Bmax`, which fixes the grid), so is the rounded one. -/
theorem round_lower (fmt : FloatFormat) (n : Int) (d B Bmax : Nat) (hd : 0 < d)
    (hlo : B * d ≤ n.natAbs) (hhi : n.natAbs ≤ Bmax * d)
    (hdiv : 2 ^ (max (floorLog2 Bmax - (fmt.prec - 1)) fmt.qmin) ∣ B)
    (r : Int) (hr : fmt.round n d = .fin r) : B ≤ r.natAbs := by
  unfold FloatFormat.round at hr
  simp only [] at hr
  by_cases h0 : n.natAbs = 0
  · rw [h0] at hlo
    have hB : B = 0 := by
      rcases Nat.eq_zero_or_pos B with h | h
      · exact h
      · have := Nat.mul_pos h hd
        omega
    omega
  · rw [if_neg h0] at hr
    have hapos : 1 ≤ n.natAbs := Nat.one_le_iff_ne_zero.mpr h0
    have hlt : n.natAbs < 2 ^ (floorLog2 Bmax + 1) * d :=
      lt_of_le_of_lt hhi (Nat.mul_lt_mul_of_pos_right (floorLog2_lt Bmax) hd)
    have hL : floorLog2Ratio n.natAbs d < floorLog2 Bmax + 1 :=
      floorLog2Ratio_lt _ _ _ hapos hlt (by omega)
    generalize hE : max (floorLog2Ratio n.natAbs d - (fmt.prec - 1)) fmt.qmin = e at hr
    have hele : e ≤ max (floorLog2 Bmax - (fmt.prec - 1)) fmt.qmin := by
      rw [← hE]
      exact max_le_max (by omega) (le_refl _)
    have hdvd : 2 ^ e ∣ B := Dvd.dvd.trans (pow_dvd_pow 2 hele) hdiv
    obtain ⟨M, hM⟩ := hdvd
    have hpos : 0 < d * 2 ^ e := by positivity
    have hle : M * (d * 2 ^ e) ≤ n.natAbs := by
      calc M * (d * 2 ^ e) = B * d := by rw [hM]; ring
        _ ≤ n.natAbs := hlo
    have hq : M ≤ n.natAbs / (d * 2 ^ e) := (Nat.le_div_iff_mul_le hpos).mpr hle
    have hge := roundHalfEven_ge n.natAbs (d * 2 ^ e)
    have hk : B ≤ roundHalfEven n.natAbs (d * 2 ^ e) * 2 ^ e := by
      calc B = M * 2 ^ e := by rw [hM]; ring
        _ ≤ roundHalfEven n.natAbs (d * 2 ^ e) * 2 ^ e :=
            Nat.mul_le_mul_right _ (le_trans hq hge)
    generalize roundHalfEven n.natAbs (d * 2 ^ e) * 2 ^ e = k at hk hr
    split at hr
    · cases hr
    · split at hr
      · cases hr
        omega
      · cases hr
        omega

theorem natAbs_two_mul_ge (U : Nat) (k : Int) (c : Nat) (hk : c * U ≤ k.natAbs) :
    2 * c * U * U ≤ (2 * (U : Int) * k).natAbs := by
  have e : (2 * (U : Int) * k).natAbs = 2 * U * k.natAbs := by
    rw [Int.natAbs_mul, Int.natAbs_mul]
    simp
  rw [e]
  calc 2 * c * U * U = 2 * U * (c * U) := by ring
    _ ≤ 2 * U * k.natAbs := Nat.mul_le_mul_left _ hk

theorem grid200 :
    2 ^ max (floorLog2 (200 * 2 ^ unitExp) - (binary32.prec - 1)) binary32.qmin ∣
      200 * 2 ^ unitExp := by
  decide!

theorem grid100 :
    2 ^ max (floorLog2 (100 * 2 ^ unitExp) - (binary32.prec - 1)) binary32.qmin ∣
      100 * 2 ^ unitExp := by
  decide!

theorem grid100of200 :
    2 ^ max (floorLog2 (200 * 2 ^ unitExp) - (binary32.prec - 1)) binary32.qmin ∣
      100 * 2 ^ unitExp := by
  decide!

theorem max200 : 200 * 2 ^ unitExp < 2 ^ binary32.emax := by
  decide!

theorem max100 : 100 * 2 ^ unitExp < 2 ^ binary32.emax := by
  decide!

theorem natAbs_two_mul (U : Nat) (k : Int) (c : Nat) (hk : k.natAbs ≤ c * U) :
    (2 * (U : Int) * k).natAbs ≤ 2 * c * U * U := by
  have e : (2 * (U : Int) * k).natAbs = 2 * U * k.natAbs := by
    rw [Int.natAbs_mul, Int.natAbs_mul]
    simp
  rw [e]
  calc 2 * U * k.natAbs ≤ 2 * U * (c * U) := Nat.mul_le_mul_left _ hk
    _ = 2 * c * U * U := by ring

/-- The two roundings of `2*percent + 100` for a negative percentage of at least -100,
with the unit `U` kept abstract. -/
theorem curve_range_aux (U : Nat) (k : Int) (hU : 0 < U) (hneg : k < 0)
    (hlo : -(100 * (U : Int)) ≤ k)
    (g200 : 2 ^ max (floorLog2 (200 * U) - (binary32.prec - 1)) binary32.qmin ∣ 200 * U)
    (g100 : 2 ^ max (floorLog2 (100 * U) - (binary32.prec - 1)) binary32.qmin ∣ 100 * U)
    (g12 : 2 ^ max (floorLog2 (200 * U) - (binary32.prec - 1)) binary32.qmin ∣ 100 * U)
    (m200 : 200 * U < 2 ^ binary32.emax) (m100 : 100 * U < 2 ^ binary32.emax) :
    ∃ r2 r : Int, binary32.round (2 * (U : Int) * k) U = .fin r2 ∧
      binary32.round (r2 + 100 * (U : Int)) 1 = .fin r ∧
      -(100 * (U : Int)) ≤ r ∧ r ≤ 100 * (U : Int) ∧ (-(50 * (U : Int)) ≤ k → 0 ≤ r) ∧
      (k < -(50 * (U : Int)) → r ≤ 0) := by
  have hn : 2 * (U : Int) * k ≤ 0 := by
    have : (0 : Int) ≤ 2 * (U : Int) := by positivity
    exact Int.mul_nonpos_of_nonneg_of_nonpos this (le_of_lt hneg)
  by_cases h50 : -(50 * (U : Int)) ≤ k
  · have hB := natAbs_two_mul U k 50 (by omega)
    obtain ⟨r2, e2, b2, _, s2⟩ :=
      round_bound binary32 (2 * (U : Int) * k) U (100 * U) hU (by simpa using hB) g100 m100
    have hr2 := s2 hn
    obtain ⟨r, e, b, s, _⟩ :=
      round_bound binary32 (r2 + 100 * (U : Int)) 1 (100 * U) Nat.one_pos (by omega) g100 m100
    exact ⟨r2, r, e2, e, by omega, by omega, fun _ => s (by omega), fun h => by omega⟩
  · have hB := natAbs_two_mul U k 100 (by omega)
    obtain ⟨r2, e2, b2, _, s2⟩ :=
      round_bound binary32 (2 * (U : Int) * k) U (200 * U) hU (by simpa using hB) g200 m200
    have hr2 := s2 hn
    have hG := natAbs_two_mul_ge U k 50 (by omega)
    have l2 := round_lower binary32 (2 * (U : Int) * k) U (100 * U) (200 * U) hU
      (by simpa using hG) (by simpa using hB) g12 r2 e2
    obtain ⟨r, e, b, _, s⟩ :=
      round_bound binary32 (r2 + 100 * (U : Int)) 1 (100 * U) Nat.one_pos (by omega) g100 m100
    exact ⟨r2, r, e2, e, by omega, by omega, fun h => absurd h h50, fun _ => s (by omega)⟩

/-- The scale stays in [-100, 100] for every percentage of at least -100, and in
[0, 100] for every percentage of at least -50. -/
theorem curve_range (k : Int) (hlo : -(100 * 2 ^ unitExp) ≤ k) :
    ∃ r : Int, steeringPowerCurve (.fin k) = .fin r ∧
      -(100 * 2 ^ unitExp) ≤ r ∧ r ≤ 100 * 2 ^ unitExp ∧
      (-(50 * 2 ^ unitExp) ≤ k → 0 ≤ r) ∧ (k < -(50 * 2 ^ unitExp) → r ≤ 0) := by
  have hcast : ((2 : Int) ^ unitExp) = (((2 : Nat) ^ unitExp : Nat) : Int) := by
    push_cast
    rfl
  by_cases hneg : k < 0
  · have hlt : (GoFloat.fin k).ltZero = true := by simp [GoFloat.ltZero, hneg]
    have hlo' : -(100 * (((2 : Nat) ^ unitExp : Nat) : Int)) ≤ k := by
      rw [← hcast]
      exact hlo
    obtain ⟨r2, r, e2, e, b1, b2, b3, b4⟩ :=
      curve_range_aux (2 ^ unitExp) k (by positivity) hneg hlo' grid200 grid100 grid100of200
        max200 max100
    refine ⟨r, ?_, ?_, ?_, ?_, ?_⟩
    · unfold steeringPowerCurve
      rw [if_pos hlt]
      simp only [GoFloat.mul, GoFloat.ofInt]
      rw [hcast, e2]
      simp only [GoFloat.add]
      rw [e]
    · rw [hcast]
      exact b1
    · rw [hcast]
      exact b2
    · rw [hcast]
      exact b3
    · rw [hcast]
      exact b4
  · have hlt : (GoFloat.fin k).ltZero = false := by simp [GoFloat.ltZero, hneg]
    have hu : (0 : Int) < 2 ^ unitExp := by positivity
    refine ⟨100 * 2 ^ unitExp, ?_, ?_, le_refl _, fun _ => by positivity, ?_⟩
    · unfold steeringPowerCurve
      simp [hlt, GoFloat.ofInt]
    · generalize (2 : Int) ^ unitExp = u at hu ⊢
      omega
    · generalize (2 : Int) ^ unitExp = u at hu ⊢
      intro h
      omega

/-- C12 (counterexample): the percentage -100 lies in [-100, 100], and
`steeringPowerCurve(-100)` is -100, a negative scale outside [0, 100]. -/
theorem C12_counterexample :
    steeringPowerCurve (GoFloat.ofInt (-100)) = GoFloat.ofInt (-100) ∧
    (GoFloat.ofInt (-100)).ltZero = true := by
  refine ⟨?_, by decide!⟩
  have h := curve_int (-100) (by norm_num)
  simpa [scaleInt] using h

/-- C12 (as amended): for every percentage of at least -50 (in particular every percent
in [-50, 100]) the scale returned by `steeringPowerCurve` lies in [0, 100]; for every
percentage in [-100, -50) it lies in [-100, 0], and at the whole percentages of that
range it is `2*percent + 100`, which is negative. -/
theorem C12_scale_range :
    (∀ k : Int, -(50 * 2 ^ unitExp) ≤ k →
      ∃ r : Int, steeringPowerCurve (.fin k) = .fin r ∧ 0 ≤ r ∧ r ≤ 100 * 2 ^ unitExp) ∧
    (∀ k : Int, -(100 * 2 ^ unitExp) ≤ k → k < -(50 * 2 ^ unitExp) →
      ∃ r : Int, steeringPowerCurve (.fin k) = .fin r ∧ -(100 * 2 ^ unitExp) ≤ r ∧ r ≤ 0) ∧
    (∀ n : Int, -100 ≤ n → n < -50 →
      steeringPowerCurve (GoFloat.ofInt n) = GoFloat.ofInt (2 * n + 100) ∧
        2 * n + 100 < 0) := by
  have hu : (0 : Int) < 2 ^ unitExp := by positivity
  refine ⟨?_, ?_, ?_⟩
  · intro k hk
    have hlo : -(100 * 2 ^ unitExp) ≤ k := by
      generalize (2 : Int) ^ unitExp = u at hu hk ⊢
      omega
    obtain ⟨r, e, _, b2, b3, _⟩ := curve_range k hlo
    exact ⟨r, e, b3 hk, b2⟩
  · intro k hlo hk
    obtain ⟨r, e, b1, _, _, b4⟩ := curve_range k hlo
    exact ⟨r, e, b1, b4 hk⟩
  · intro n hlo hhi
    have h := curve_int n (by norm_num; omega)
    have hs : scaleInt n = 2 * n + 100 := by
      unfold scaleInt
      rw [if_pos (by omega)]
    rw [hs] at h
    exact ⟨h, by omega⟩

/-- Dividing `A * 2 ^ U` by 100 with rounding to a grid `2 ^ e` that is at least 8 bits
finer than `2 ^ U`: the rounded value has the integer part `A / 100`. -/
theorem round_div100_nat (A U q : Nat) (hA1 : 1 ≤ A) (hA : A ≤ 3276700) (hU : 8 ≤ U)
    (hq : q ≤ U - 8) :
    roundHalfEven (A * 2 ^ U)
        (100 * 2 ^ max (floorLog2Ratio (A * 2 ^ U) 100 - 23) q) *
        2 ^ max (floorLog2Ratio (A * 2 ^ U) 100 - 23) q < 2 ^ (U + 15) ∧
    roundHalfEven (A * 2 ^ U)
        (100 * 2 ^ max (floorLog2Ratio (A * 2 ^ U) 100 - 23) q) *
        2 ^ max (floorLog2Ratio (A * 2 ^ U) 100 - 23) q / 2 ^ U = A / 100 := by
  have hpU : 0 < 2 ^ U := by positivity
  have ha : 1 ≤ A * 2 ^ U := Nat.mul_pos hA1 hpU
  have hlt : A * 2 ^ U < 2 ^ (U + 16) * 100 := by
    have e1 : 2 ^ (U + 16) * 100 = 6553600 * 2 ^ U := by
      rw [pow_add]
      ring
    rw [e1]
    exact Nat.mul_lt_mul_of_pos_right (by omega) hpU
  have hL := floorLog2Ratio_lt (A * 2 ^ U) 100 (U + 16) ha hlt (by omega)
  generalize hE : max (floorLog2Ratio (A * 2 ^ U) 100 - 23) q = e
  have hele : e ≤ U - 8 := by
    rw [← hE]
    exact max_le (by omega) hq
  have hw : 2 ^ U = 2 ^ (U - e) * 2 ^ e := by
    rw [← pow_add]
    congr 1
    omega
  have hw200 : 200 ≤ 2 ^ (U - e) := by
    calc 200 ≤ 2 ^ 8 := by norm_num
      _ ≤ 2 ^ (U - e) := Nat.pow_le_pow_right (by norm_num) (by omega)
  have hb := round_div100_bounds A (2 ^ (U - e)) e hw200
  rw [← hw] at hb
  generalize roundHalfEven (A * 2 ^ U) (100 * 2 ^ e) * 2 ^ e = k at hb
  obtain ⟨hb1, hb2⟩ := hb
  constructor
  · have h15 : 2 ^ (U + 15) = 32768 * 2 ^ U := by
      rw [pow_add]
      ring
    rw [h15]
    calc k < (A / 100 + 1) * 2 ^ U := hb2
      _ ≤ 32768 * 2 ^ U := Nat.mul_le_mul_right _ (by omega)
  · apply Nat.div_eq_of_lt_le
    · exact hb1
    · exact hb2

theorem tdiv_cast (s : Bool) (k A U : Nat) (h : k / U = A / 100) :
    Int.tdiv (if s then -(k : Int) else (k : Int)) (U : Int) =
      Int.tdiv (if s then -(A : Int) else (A : Int)) 100 := by
  have h1 : Int.tdiv (k : Int) (U : Int) = ((k / U : Nat) : Int) := (Int.ofNat_tdiv k U).symm
  have h2 : Int.tdiv (A : Int) 100 = ((A / 100 : Nat) : Int) := (Int.ofNat_tdiv A 100).symm
  cases s
  · simp only [Bool.false_eq_true, if_false]
    rw [h1, h2, h]
  · simp only [if_true]
    rw [Int.neg_tdiv, Int.neg_tdiv, h1, h2, h]

/-- The `float32` division by 100 of a whole number of at most 3276700 in magnitude,
converted back to an integer, is the integer quotient truncated toward zero. -/
theorem round32_div100 (m : Int) (hm : m.natAbs ≤ 3276700) :
    ∃ r : Int, binary32.round (m * 2 ^ unitExp) 100 = .fin r ∧
      Int.tdiv r (2 ^ unitExp) = Int.tdiv m 100 := by
  by_cases h0 : m = 0
  · subst h0
    exact ⟨0, by simp [FloatFormat.round], by simp⟩
  · have hA1 : 1 ≤ m.natAbs := by omega
    have hnat : (m * 2 ^ unitExp).natAbs = m.natAbs * 2 ^ unitExp := by
      have h2 : (2 : Int).natAbs = 2 := rfl
      rw [Int.natAbs_mul, Int.natAbs_pow, h2]
    have hcast : ((2 : Int) ^ unitExp) = (((2 : Nat) ^ unitExp : Nat) : Int) := by
      push_cast
      rfl
    have hpU : 0 < 2 ^ unitExp := by positivity
    have hne : ¬ m.natAbs * 2 ^ unitExp = 0 := Nat.pos_iff_ne_zero.mp (Nat.mul_pos hA1 hpU)
    obtain ⟨h1, h2⟩ := round_div100_nat m.natAbs unitExp binary32.qmin hA1 hm (by decide)
      (by decide)
    have hp : binary32.prec - 1 = 23 := rfl
    have hemax : 2 ^ (unitExp + 15) ≤ 2 ^ binary32.emax :=
      Nat.pow_le_pow_right (by norm_num) (by decide)
    have hsign : (m * 2 ^ unitExp < 0) ↔ m < 0 := by
      have hu : (0 : Int) < 2 ^ unitExp := by positivity
      generalize (2 : Int) ^ unitExp = u at hu
      constructor
      · intro h
        by_contra hc
        have : 0 ≤ m * u := Int.mul_nonneg (by omega) (le_of_lt hu)
        omega
      · intro h
        exact Int.mul_neg_of_neg_of_pos h hu
    unfold FloatFormat.round
    simp only []
    rw [hnat, if_neg hne, hp]
    generalize roundHalfEven (m.natAbs * 2 ^ unitExp)
        (100 * 2 ^ max (floorLog2Ratio (m.natAbs * 2 ^ unitExp) 100 - 23) binary32.qmin) *
        2 ^ max (floorLog2Ratio (m.natAbs * 2 ^ unitExp) 100 - 23) binary32.qmin = k at h1 h2 ⊢
    rw [if_neg (by omega)]
    refine ⟨_, rfl, ?_⟩
    have ht := tdiv_cast (decide (m < 0)) k m.natAbs (2 ^ unitExp) h2
    by_cases hneg : m < 0
    · have hm' : m = -(m.natAbs : Int) := by omega
      rw [if_pos (hsign.mpr hneg), hcast]
      simp only [hneg, decide_True, if_true] at ht
      rw [ht, ← hm']
    · have hm' : m = (m.natAbs : Int) := by omega
      rw [if_neg (fun h => hneg (hsign.mp h)), hcast]
      simp only [hneg, decide_False, Bool.false_eq_true, if_false] at ht
      rw [ht, ← hm']

/-- On a whole scale `c` in [-100, 100] the per-wheel power is `power * c / 100`
truncated toward zero. -/
theorem wheelPower_scaled (pf : Platform) (p c : Int) (hp : p.natAbs ≤ 32767)
    (hc : c.natAbs ≤ 100) (steering : GoFloat)
    (hs : steeringPowerCurve steering = GoFloat.ofInt c) :
    wheelPower pf p steering = Int.tdiv (p * c) 100 := by
  have hp24 : p.natAbs < 2 ^ 24 := by omega
  have hpc : (p * c).natAbs ≤ 3276700 := by
    rw [Int.natAbs_mul]
    calc p.natAbs * c.natAbs ≤ 32767 * 100 := Nat.mul_le_mul hp hc
      _ = 3276700 := by norm_num
  have hpc24 : (p * c).natAbs < 2 ^ 24 := by omega
  unfold wheelPower
  rw [hs, int16ToF32_exact p hp24]
  have hmul : GoFloat.mul binary32 (.fin (p * 2 ^ unitExp)) (GoFloat.ofInt c) =
      .fin (p * c * 2 ^ unitExp) := by
    have h := round32_int (p * c) (2 ^ unitExp) (by positivity) hpc24
    have e : p * 2 ^ unitExp * (c * 2 ^ unitExp) =
        p * c * 2 ^ unitExp * (((2 : Nat) ^ unitExp : Nat) : Int) := by
      push_cast
      ring
    simp only [GoFloat.mul, GoFloat.ofInt]
    rw [e, h]
  obtain ⟨r, hr, ht⟩ := round32_div100 (p * c) hpc
  rw [hmul]
  simp only [GoFloat.divConst]
  rw [hr]
  simp only [floatToInt]
  rw [ht]
  have hq : (Int.tdiv (p * c) 100).natAbs ≤ 32767 := by
    rw [Int.natAbs_tdiv]
    have : (p * c).natAbs / (100 : Int).natAbs ≤ 3276700 / 100 := Nat.div_le_div_right hpc
    simpa using this
  rw [if_pos ⟨by norm_num; omega, by norm_num; omega⟩]

theorem scaleInt_natAbs (n : Int) (hn : n.natAbs ≤ 100) : (scaleInt n).natAbs ≤ 100 := by
  unfold scaleInt
  split <;> omega

theorem convert32_int (n : Int) (hn : n.natAbs < 2 ^ 24) :
    GoFloat.convert binary32 (GoFloat.ofInt n) = GoFloat.ofInt n := by
  have h := round32_int n 1 Nat.one_pos hn
  simpa [GoFloat.convert, GoFloat.ofInt] using h

theorem neg_ofInt (n : Int) : (GoFloat.ofInt n).neg = GoFloat.ofInt (-n) := by
  simp [GoFloat.neg, GoFloat.ofInt]

/-- On whole steering percentages in [-100, 100] the two per-wheel powers are
`power * scale / 100` truncated toward zero, with the scales of `steering` and of
`-steering`. -/
theorem wheelPower_int (pf : Platform) (p n : Int) (hp : p.natAbs ≤ 32767)
    (hn : n.natAbs ≤ 100) :
    wheelPower pf p (GoFloat.convert binary32 (GoFloat.ofInt n)) =
      Int.tdiv (p * scaleInt n) 100 ∧
    wheelPower pf p (GoFloat.convert binary32 (GoFloat.ofInt n)).neg =
      Int.tdiv (p * scaleInt (-n)) 100 := by
  have hn' : (-n).natAbs ≤ 100 := by omega
  rw [convert32_int n (by omega), neg_ofInt]
  exact ⟨wheelPower_scaled pf p (scaleInt n) hp (scaleInt_natAbs n hn) _
      (curve_int n (by norm_num; omega)),
    wheelPower_scaled pf p (scaleInt (-n)) hp (scaleInt_natAbs (-n) hn') _
      (curve_int (-n) (by norm_num; omega))⟩

/-- The per-wheel powers of a call with a whole steering percentage and a base power
that `int16` holds: `power * scale / 100`, truncated toward zero. -/
theorem wheelPower_whole (pf : Platform) (power n : Int) (hn : n.natAbs ≤ 100)
    (hp : power.natAbs ≤ 32767) :
    wheelPower pf (toInt16 power) (GoFloat.convert binary32 (GoFloat.ofInt n)) =
      Int.tdiv (power * scaleInt n) 100 ∧
    wheelPower pf (toInt16 power) (GoFloat.convert binary32 (GoFloat.ofInt n)).neg =
      Int.tdiv (power * scaleInt (-n)) 100 := by
  rw [toInt16_of_range power (by omega) (by omega)]
  exact wheelPower_int pf power n hp hn

/-- C13: for every `float64` steering and every power within the `int16` range,
`MoveSteering(MOVE_ON, steering, power)` returns no error and logs exactly two calls,
`Run` on the left motor with `L` and then `Run` on the right motor with `R`, the
per-wheel powers `int16(float32(power) * steeringPowerCurve(±steering) / 100)`; nothing
else changes: no brake-mode write, no `ReadState`, the Drive's brake state and
heading-hold handle are as before.  For steering 0, `L = R = power`; for a whole
steering percentage in [-100, 100], `L` and `R` are `power * scale / 100` truncated toward
zero, with the scales of `steering` and of `-steering`. -/
theorem C13_move_on (pf : Platform) (env : Nat → String) (fuel : Nat) (s : Sys)
    (steering : GoFloat) (power : Int) (hlo : -32768 ≤ power) (hhi : power ≤ 32767) :
    MoveSteering pf env (fuel + 1) s MOVE_ON [.float64 steering, .int power] =
      some (.ok, { s with log := s.log ++
        [.Run s.d.leftMotor (wheelPower pf power (GoFloat.convert binary32 steering)),
         .Run s.d.rightMotor (wheelPower pf power (GoFloat.convert binary32 steering).neg)] }) ∧
    wheelPower pf power (GoFloat.convert binary32 (GoFloat.ofInt 0)) = power ∧
    wheelPower pf power (GoFloat.convert binary32 (GoFloat.ofInt 0)).neg = power ∧
    (∀ n : Int, n.natAbs ≤ 100 → power.natAbs ≤ 32767 →
      wheelPower pf power (GoFloat.convert binary32 (GoFloat.ofInt n)) =
        Int.tdiv (power * scaleInt n) 100 ∧
      wheelPower pf power (GoFloat.convert binary32 (GoFloat.ofInt n)).neg =
        Int.tdiv (power * scaleInt (-n)) 100) := by
  have h := MoveSteering_on pf env fuel s steering power
  rw [toInt16_of_range power hlo hhi] at h
  refine ⟨h, ?_, ?_, fun n hn hp => wheelPower_int pf power n hp hn⟩
  · rw [convert32_zero]
    exact wheelPower_scale100 pf power hlo hhi _ curve_zero
  · rw [convert32_zero]
    have : (GoFloat.fin 0).neg = .fin 0 := by simp [GoFloat.neg]
    rw [this]
    exact wheelPower_scale100 pf power hlo hhi _ curve_zero

set_option maxRecDepth 10000 in
/-- C13, witness: steering -30 at power 77 runs the left motor at 30 (77 * 40 / 100,
truncated) and the right motor at 77. -/
theorem C13_move_on_witness :
    (-32768 : Int) ≤ 77 ∧ (77 : Int) ≤ 32767 ∧
    MoveSteering testPlatform idleEnv 1 demo MOVE_ON [.float64 (GoFloat.ofInt (-30)), .int 77] =
      some (.ok, { demo with log := demo.log ++ [.Run "B" 30, .Run "C" 77] }) :=
  ⟨by decide, by decide,
    ((C13_move_on testPlatform idleEnv 0 demo (GoFloat.ofInt (-30)) 77 (by decide)
      (by decide)).1).trans (by decide!)⟩

/-- Converse of `waitLoop_rounds`: a wait loop that returns has seen some number `k` of
rounds with both motors non-idle and then a round with an idle motor. -/
theorem waitLoop_busy (env : Nat → String) (fuel : Nat) :
    ∀ s s1 : Sys, waitLoop env fuel s = some s1 →
    ∃ k, k < fuel ∧
      (∀ j, j < k → env (s.polls + 2 * j) ≠ "" ∧ env (s.polls + 2 * j + 1) ≠ "") ∧
      (env (s.polls + 2 * k) = "" ∨ env (s.polls + 2 * k + 1) = "") := by
  induction fuel with
  | zero =>
    intro s s1 h
    simp [waitLoop] at h
  | succ n ih =>
    intro s s1 h
    rw [waitLoop] at h
    by_cases h0 : env s.polls = ""
    · exact ⟨0, Nat.succ_pos n, fun j hj => absurd hj (Nat.not_lt_zero j),
        Or.inl (by simpa using h0)⟩
    · by_cases h1 : env (s.polls + 1) = ""
      · exact ⟨0, Nat.succ_pos n, fun j hj => absurd hj (Nat.not_lt_zero j),
          Or.inr (by simpa using h1)⟩
      · simp only [beq_iff_eq, h0, h1, if_false] at h
        obtain ⟨k, hk, hbusy, hidle⟩ := ih _ _ h
        simp only [Sys.emit] at hbusy hidle
        refine ⟨k + 1, Nat.succ_lt_succ hk, ?_, ?_⟩
        · intro j hj
          cases j with
          | zero => exact ⟨by simpa using h0, by simpa using h1⟩
          | succ i =>
            have := hbusy i (Nat.lt_of_succ_lt_succ hj)
            have e1 : s.polls + 1 + 1 + 2 * i = s.polls + 2 * (i + 1) := by omega
            simp only [e1] at this
            exact this
        · have e1 : s.polls + 1 + 1 + 2 * k = s.polls + 2 * (k + 1) := by omega
          simp only [e1] at hidle
          exact hidle

/-- What a wait loop that returns has done: `k` busy rounds and the exit round. -/
theorem waitLoop_result (env : Nat → String) (fuel : Nat) (s s1 : Sys)
    (h : waitLoop env fuel s = some s1) :
    ∃ k, (∀ j, j < k → env (s.polls + 2 * j) ≠ "" ∧ env (s.polls + 2 * j + 1) ≠ "") ∧
      (env (s.polls + 2 * k) = "" ∨ env (s.polls + 2 * k + 1) = "") ∧
      s1 = { s with
        polls := s.polls + 2 * k + (if env (s.polls + 2 * k) = "" then 1 else 2)
        log := s.log ++ (busyRounds s.d k ++
          exitRound s.d (decide (env (s.polls + 2 * k) = ""))) } := by
  obtain ⟨k, hk, hbusy, hidle⟩ := waitLoop_busy env fuel s s1 h
  refine ⟨k, hbusy, hidle, ?_⟩
  have e : fuel = k + 1 + (fuel - (k + 1)) := by omega
  have h2 := waitLoop_rounds env k (fuel - (k + 1)) s hbusy hidle
  rw [← e, h] at h2
  exact Option.some.inj h2

theorem busyRounds_congr (d d1 : Drive) (hl : d1.leftMotor = d.leftMotor)
    (hr : d1.rightMotor = d.rightMotor) (k : Nat) : busyRounds d1 k = busyRounds d k := by
  induction k with
  | zero => rfl
  | succ k ih => simp [busyRounds, hl, hr, ih]

theorem exitRound_congr (d d1 : Drive) (hl : d1.leftMotor = d.leftMotor)
    (hr : d1.rightMotor = d.rightMotor) (b : Bool) : exitRound d1 b = exitRound d b := by
  simp [exitRound, hl, hr]

/-- The log of a wait loop is never empty: it begins with a poll of the left motor. -/
theorem waitRounds_head (d : Drive) (k : Nat) (b : Bool) :
    (busyRounds d k ++ exitRound d b).head? = some (.ReadState d.leftMotor) := by
  cases k with
  | zero => cases b <;> simp [busyRounds, exitRound]
  | succ k => simp [busyRounds]

/-- The events of a wait loop's log are polls and sleeps. -/
theorem waitRounds_events (d : Drive) (k : Nat) (b : Bool) :
    ∀ e ∈ busyRounds d k ++ exitRound d b, Event.isWaitEvent d e := by
  induction k with
  | zero =>
    intro e he
    unfold Event.isWaitEvent
    cases b <;> simp [busyRounds, exitRound] at he <;> tauto
  | succ k ih =>
    intro e he
    simp only [busyRounds, List.append_assoc, List.cons_append, List.nil_append,
      List.mem_cons] at he
    rcases he with he | he | he | he
    · exact Or.inl he
    · exact Or.inr (Or.inl he)
    · exact Or.inr (Or.inr he)
    · exact ih e (by simpa [List.append_assoc] using he)

/-- The wait loop started after `setBrakeMode` with the log `L`: `k` busy rounds and an
idle answer give its result, with fuel for `k + 1` rounds. -/
theorem waitLoop_after_brake (env : Nat → String) (s : Sys) (brake : Bool) (L : List Event)
    (k extra : Nat)
    (hbusy : ∀ j, j < k → env (s.polls + 2 * j) ≠ "" ∧ env (s.polls + 2 * j + 1) ≠ "")
    (hidle : env (s.polls + 2 * k) = "" ∨ env (s.polls + 2 * k + 1) = "") :
    waitLoop env (k + 1 + extra) { setBrakeMode s brake with log := L } =
      some { setBrakeMode s brake with
        polls := s.polls + 2 * k + (if env (s.polls + 2 * k) = "" then 1 else 2)
        log := L ++ (busyRounds s.d k ++
          exitRound s.d (decide (env (s.polls + 2 * k) = ""))) } := by
  have hp := setBrakeMode_polls s brake
  have hb := busyRounds_congr s.d (setBrakeMode s brake).d (by rw [setBrakeMode_d])
    (by rw [setBrakeMode_d]) k
  have he := exitRound_congr s.d (setBrakeMode s brake).d (by rw [setBrakeMode_d])
    (by rw [setBrakeMode_d]) (decide (env (s.polls + 2 * k) = ""))
  rw [waitLoop_rounds env k extra _ (by simpa [hp] using hbusy) (by simpa [hp] using hidle)]
  simp only [hp, hb, he]

/-- What the wait loop started after `setBrakeMode` has done when it returns. -/
theorem waitLoop_after_brake_result (env : Nat → String) (fuel : Nat) (s : Sys)
    (brake : Bool) (L : List Event) (s1 : Sys)
    (h : waitLoop env fuel { setBrakeMode s brake with log := L } = some s1) :
    ∃ k, (∀ j, j < k → env (s.polls + 2 * j) ≠ "" ∧ env (s.polls + 2 * j + 1) ≠ "") ∧
      (env (s.polls + 2 * k) = "" ∨ env (s.polls + 2 * k + 1) = "") ∧
      s1 = { setBrakeMode s brake with
        polls := s.polls + 2 * k + (if env (s.polls + 2 * k) = "" then 1 else 2)
        log := L ++ (busyRounds s.d k ++
          exitRound s.d (decide (env (s.polls + 2 * k) = ""))) } := by
  have hp := setBrakeMode_polls s brake
  obtain ⟨k, hk, hbusy, hidle⟩ := waitLoop_busy env fuel _ s1 h
  simp only [hp] at hbusy hidle
  refine ⟨k, hbusy, hidle, ?_⟩
  have e : fuel = k + 1 + (fuel - (k + 1)) := by omega
  have h2 := waitLoop_after_brake env s brake L k (fuel - (k + 1)) hbusy hidle
  rw [← e, h] at h2
  exact Option.some.inj h2

/-- The call `MOVE_ON_DEGREES` in full: after `k` rounds that find both motors busy and
an idle answer it returns nil, having logged the brake-mode writes, the two `RunToRelPos`
and then the polls of the wait loop. -/
theorem MoveSteering_degrees_rounds (pf : Platform) (env : Nat → String) (s : Sys)
    (steering : GoFloat) (power degrees : Int) (brake : Bool) (k extra : Nat)
    (hbusy : ∀ j, j < k → env (s.polls + 2 * j) ≠ "" ∧ env (s.polls + 2 * j + 1) ≠ "")
    (hidle : env (s.polls + 2 * k) = "" ∨ env (s.polls + 2 * k + 1) = "") :
    MoveSteering pf env (k + 2 + extra) s MOVE_ON_DEGREES
        [.float64 steering, .int power, .int degrees, .bool brake] =
      some (.ok, { setBrakeMode s brake with
        polls := s.polls + 2 * k + (if env (s.polls + 2 * k) = "" then 1 else 2)
        log := s.log ++ degreesCalls pf s steering power degrees brake ++
          (busyRounds s.d k ++ exitRound s.d (decide (env (s.polls + 2 * k) = ""))) }) := by
  have e : k + 2 + extra = (k + 1 + extra) + 1 := by omega
  rw [e, MoveSteering_degrees, waitLoop_after_brake env s brake _ k extra hbusy hidle]
  rfl

/-- What `MOVE_ON_DEGREES` has done whenever it returns. -/
theorem MoveSteering_degrees_result (pf : Platform) (env : Nat → String) (s : Sys)
    (steering : GoFloat) (power degrees : Int) (brake : Bool) (fuel : Nat) (out : Outcome)
    (s1 : Sys)
    (h : MoveSteering pf env fuel s MOVE_ON_DEGREES
        [.float64 steering, .int power, .int degrees, .bool brake] = some (out, s1)) :
    out = .ok ∧ ∃ polls,
      s1.log = s.log ++ degreesCalls pf s steering power degrees brake ++ polls ∧
      (∀ e ∈ polls, Event.isWaitEvent s.d e) ∧
      polls.head? = some (.ReadState s.d.leftMotor) ∧
      ∃ k, (∀ j, j < k → env (s.polls + 2 * j) ≠ "" ∧ env (s.polls + 2 * j + 1) ≠ "") ∧
        (env (s.polls + 2 * k) = "" ∨ env (s.polls + 2 * k + 1) = "") ∧
        polls = busyRounds s.d k ++ exitRound s.d (decide (env (s.polls + 2 * k) = "")) := by
  cases fuel with
  | zero => simp [MoveSteering] at h
  | succ f =>
    rw [MoveSteering_degrees, Option.map_eq_some'] at h
    obtain ⟨s3, hw, hpair⟩ := h
    cases hpair
    obtain ⟨k, hbusy, hidle, hs⟩ := waitLoop_after_brake_result env f s brake _ _ hw
    refine ⟨rfl, busyRounds s.d k ++ exitRound s.d (decide (env (s.polls + 2 * k) = "")),
      by rw [hs], waitRounds_events s.d k _, waitRounds_head s.d k _, k, hbusy, hidle, rfl⟩

/-- The call `MOVE_ON_SECONDS` in full: after `k` rounds that find both motors busy and
an idle answer it returns nil, having logged the brake-mode writes, the two `RunTimed`
and then the polls of the wait loop. -/
theorem MoveSteering_seconds_rounds (pf : Platform) (env : Nat → String) (s : Sys)
    (steering : GoFloat) (power : Int) (seconds : GoFloat) (brake : Bool) (k extra : Nat)
    (hbusy : ∀ j, j < k → env (s.polls + 2 * j) ≠ "" ∧ env (s.polls + 2 * j + 1) ≠ "")
    (hidle : env (s.polls + 2 * k) = "" ∨ env (s.polls + 2 * k + 1) = "") :
    MoveSteering pf env (k + 2 + extra) s MOVE_ON_SECONDS
        [.float64 steering, .int power, .float64 seconds, .bool brake] =
      some (.ok, { setBrakeMode s brake with
        polls := s.polls + 2 * k + (if env (s.polls + 2 * k) = "" then 1 else 2)
        log := s.log ++ secondsCalls pf s steering power seconds brake ++
          (busyRounds s.d k ++ exitRound s.d (decide (env (s.polls + 2 * k) = ""))) }) := by
  have e : k + 2 + extra = (k + 1 + extra) + 1 := by omega
  rw [e, MoveSteering_seconds, waitLoop_after_brake env s brake _ k extra hbusy hidle]
  rfl

/-- What `MOVE_ON_SECONDS` has done whenever it returns. -/
theorem MoveSteering_seconds_result (pf : Platform) (env : Nat → String) (s : Sys)
    (steering : GoFloat) (power : Int) (seconds : GoFloat) (brake : Bool) (fuel : Nat)
    (out : Outcome) (s1 : Sys)
    (h : MoveSteering pf env fuel s MOVE_ON_SECONDS
        [.float64 steering, .int power, .float64 seconds, .bool brake] = some (out, s1)) :
    out = .ok ∧ ∃ polls,
      s1.log = s.log ++ secondsCalls pf s steering power seconds brake ++ polls ∧
      (∀ e ∈ polls, Event.isWaitEvent s.d e) ∧
      polls.head? = some (.ReadState s.d.leftMotor) ∧
      ∃ k, (∀ j, j < k → env (s.polls + 2 * j) ≠ "" ∧ env (s.polls + 2 * j + 1) ≠ "") ∧
        (env (s.polls + 2 * k) = "" ∨ env (s.polls + 2 * k + 1) = "") ∧
        polls = busyRounds s.d k ++ exitRound s.d (decide (env (s.polls + 2 * k) = "")) := by
  cases fuel with
  | zero => simp [MoveSteering] at h
  | succ f =>
    rw [MoveSteering_seconds, Option.map_eq_some'] at h
    obtain ⟨s3, hw, hpair⟩ := h
    cases hpair
    obtain ⟨k, hbusy, hidle, hs⟩ := waitLoop_after_brake_result env f s brake _ _ hw
    refine ⟨rfl, busyRounds s.d k ++ exitRound s.d (decide (env (s.polls + 2 * k) = "")),
      by rw [hs], waitRounds_events s.d k _, waitRounds_head s.d k _, k, hbusy, hidle, rfl⟩

/-- C14: with well-typed arguments `MOVE_ON_DEGREES` never returns an error, and what it
has logged when it returns is, in this order: the brake-mode writes of
`setBrakeMode(brake)` (if any), `RunToRelPos` on the left motor and then on the right
motor with the per-wheel powers and the same `degrees`, and only then the calls of the
completion wait.  These last calls are never missing: they begin with a `ReadState` of
the left motor and are exactly the log of the wait loop, `k` rounds that poll both motors
and sleep 250 ms, then the round that finds a motor idle.  The call does return once some
later `ReadState` answers idle: after `k` busy rounds and an idle answer, fuel for
`k + 1` rounds gives the result ok with exactly this log.  For a whole steering
percentage in [-100, 100] the per-wheel powers are
`power * steeringPowerCurve(±steering) / 100` truncated toward zero. -/
theorem C14_on_degrees (pf : Platform) (env : Nat → String) (s : Sys)
    (steering : GoFloat) (power degrees : Int) (brake : Bool) :
    (∀ fuel out s1,
      MoveSteering pf env fuel s MOVE_ON_DEGREES
          [.float64 steering, .int power, .int degrees, .bool brake] = some (out, s1) →
      out = .ok ∧ ∃ polls,
        s1.log = s.log ++ degreesCalls pf s steering power degrees brake ++ polls ∧
        (∀ e ∈ polls, Event.isWaitEvent s.d e) ∧
        polls.head? = some (.ReadState s.d.leftMotor) ∧
        ∃ k, (∀ j, j < k → env (s.polls + 2 * j) ≠ "" ∧ env (s.polls + 2 * j + 1) ≠ "") ∧
          (env (s.polls + 2 * k) = "" ∨ env (s.polls + 2 * k + 1) = "") ∧
          polls = busyRounds s.d k ++
            exitRound s.d (decide (env (s.polls + 2 * k) = ""))) ∧
    (∀ n, env (s.polls + n) = "" → ∃ s1,
      MoveSteering pf env (n + 2) s MOVE_ON_DEGREES
          [.float64 steering, .int power, .int degrees, .bool brake] = some (.ok, s1)) ∧
    (∀ k extra,
      (∀ j, j < k → env (s.polls + 2 * j) ≠ "" ∧ env (s.polls + 2 * j + 1) ≠ "") →
      (env (s.polls + 2 * k) = "" ∨ env (s.polls + 2 * k + 1) = "") →
      MoveSteering pf env (k + 2 + extra) s MOVE_ON_DEGREES
          [.float64 steering, .int power, .int degrees, .bool brake] =
        some (.ok, { setBrakeMode s brake with
          polls := s.polls + 2 * k + (if env (s.polls + 2 * k) = "" then 1 else 2)
          log := s.log ++ degreesCalls pf s steering power degrees brake ++
            (busyRounds s.d k ++
              exitRound s.d (decide (env (s.polls + 2 * k) = ""))) })) ∧
    (∀ n : Int, n.natAbs ≤ 100 → power.natAbs ≤ 32767 →
      wheelPower pf (toInt16 power) (GoFloat.convert binary32 (GoFloat.ofInt n)) =
        Int.tdiv (power * scaleInt n) 100 ∧
      wheelPower pf (toInt16 power) (GoFloat.convert binary32 (GoFloat.ofInt n)).neg =
        Int.tdiv (power * scaleInt (-n)) 100) := by
  refine ⟨?_, ?_, ?_, fun n hn hp => wheelPower_whole pf power n hn hp⟩
  · intro fuel out s1 h
    exact MoveSteering_degrees_result pf env s steering power degrees brake fuel out s1 h
  · intro n hidle
    rw [MoveSteering_degrees]
    obtain ⟨s1, hw⟩ := waitLoop_terminates env (n + 1) n
      { setBrakeMode s brake with
        log := s.log ++ degreesCalls pf s steering power degrees brake }
      (by simpa [setBrakeMode_polls] using hidle) (Nat.lt_succ_self n)
    exact ⟨s1, by rw [hw]; rfl⟩
  · intro k extra hbusy hidle
    exact MoveSteering_degrees_rounds pf env s steering power degrees brake k extra hbusy
      hidle

/-- C16: with well-typed arguments `MOVE_ON_SECONDS` never returns an error, and what it
has logged when it returns is, in this order: the brake-mode writes of
`setBrakeMode(brake)` (if any), `RunTimed` on the left motor and then on the right motor
with the per-wheel powers and the same `ms = int32(seconds * 1000)`, and only then the
calls of the completion wait, which begin with a `ReadState` of the left motor and are
exactly the log of the wait loop.  The call does return once some later `ReadState`
answers idle: after `k` busy rounds and an idle answer, fuel for `k + 1` rounds gives
the result ok with exactly this log.  When `seconds * 1000` (in `float64`) is within the
`int32` range, `ms` is that product truncated toward zero.  For a whole steering
percentage in [-100, 100] the per-wheel powers are
`power * steeringPowerCurve(±steering) / 100` truncated toward zero. -/
theorem C16_on_seconds (pf : Platform) (env : Nat → String) (s : Sys)
    (steering : GoFloat) (power : Int) (seconds : GoFloat) (brake : Bool) :
    (∀ fuel out s1,
      MoveSteering pf env fuel s MOVE_ON_SECONDS
          [.float64 steering, .int power, .float64 seconds, .bool brake] = some (out, s1) →
      out = .ok ∧ ∃ polls,
        s1.log = s.log ++ secondsCalls pf s steering power seconds brake ++ polls ∧
        (∀ e ∈ polls, Event.isWaitEvent s.d e) ∧
        polls.head? = some (.ReadState s.d.leftMotor) ∧
        ∃ k, (∀ j, j < k → env (s.polls + 2 * j) ≠ "" ∧ env (s.polls + 2 * j + 1) ≠ "") ∧
          (env (s.polls + 2 * k) = "" ∨ env (s.polls + 2 * k + 1) = "") ∧
          polls = busyRounds s.d k ++
            exitRound s.d (decide (env (s.polls + 2 * k) = ""))) ∧
    (∀ n, env (s.polls + n) = "" → ∃ s1,
      MoveSteering pf env (n + 2) s MOVE_ON_SECONDS
          [.float64 steering, .int power, .float64 seconds, .bool brake] = some (.ok, s1)) ∧
    (∀ k, GoFloat.mul binary64 seconds (GoFloat.ofInt 1000) = .fin k →
      -(2 ^ 31 : Int) ≤ Int.tdiv k (2 ^ unitExp) → Int.tdiv k (2 ^ unitExp) < 2 ^ 31 →
      floatToInt 32 pf.f64ToInt32 (GoFloat.mul binary64 seconds (GoFloat.ofInt 1000)) =
        Int.tdiv k (2 ^ unitExp)) ∧
    (∀ n : Int, n.natAbs ≤ 100 → power.natAbs ≤ 32767 →
      wheelPower pf (toInt16 power) (GoFloat.convert binary32 (GoFloat.ofInt n)) =
        Int.tdiv (power * scaleInt n) 100 ∧
      wheelPower pf (toInt16 power) (GoFloat.convert binary32 (GoFloat.ofInt n)).neg =
        Int.tdiv (power * scaleInt (-n)) 100) ∧
    (∀ k extra,
      (∀ j, j < k → env (s.polls + 2 * j) ≠ "" ∧ env (s.polls + 2 * j + 1) ≠ "") →
      (env (s.polls + 2 * k) = "" ∨ env (s.polls + 2 * k + 1) = "") →
      MoveSteering pf env (k + 2 + extra) s MOVE_ON_SECONDS
          [.float64 steering, .int power, .float64 seconds, .bool brake] =
        some (.ok, { setBrakeMode s brake with
          polls := s.polls + 2 * k + (if env (s.polls + 2 * k) = "" then 1 else 2)
          log := s.log ++ secondsCalls pf s steering power seconds brake ++
            (busyRounds s.d k ++
              exitRound s.d (decide (env (s.polls + 2 * k) = ""))) })) := by
  refine ⟨?_, ?_, ?_, fun n hn hp => wheelPower_whole pf power n hn hp, ?_⟩
  · intro fuel out s1 h
    exact MoveSteering_seconds_result pf env s steering power seconds brake fuel out s1 h
  · intro n hidle
    rw [MoveSteering_seconds]
    obtain ⟨s1, hw⟩ := waitLoop_terminates env (n + 1) n
      { setBrakeMode s brake with
        log := s.log ++ secondsCalls pf s steering power seconds brake }
      (by simpa [setBrakeMode_polls] using hidle) (Nat.lt_succ_self n)
    exact ⟨s1, by rw [hw]; rfl⟩
  · intro k hk hlo hhi
    rw [hk]
    simp only [floatToInt]
    rw [if_pos ⟨by simpa using hlo, by simpa using hhi⟩]
  · intro k extra hbusy hidle
    exact MoveSteering_seconds_rounds pf env s steering power seconds brake k extra hbusy
      hidle

end GoEV3Blocks
